import Mathlib

/-!
A shallow embedding of the compute-inline-expansion core of the CINN tensor
compiler, together with proofs about the specified behaviour of that core.

Embedded source files:
* `cinn/optim/compute_inline_expand.cc` — the `TensorInlineExpandMutator`
  and the `ComputeInlineExpand` driver loop.
* `cinn/ir/ir_mutator.h` — the default (per node kind) traversal of
  `IRMutator`, embedded as `IRMutator.Visit`.
* the header of the GPU-for-loop transform — `GatherAxisInfoFromStages` is
  only declared there, so its behaviour is modelled from the spec.

Modelling conventions:
* The IR `Expr` tree is embedded as an inductive type covering the node
  kinds the inline pass and its claims exercise (immediates, variables,
  binary arithmetic, `Load`/`Store`, `_Tensor_`, `For`, `PolyFor`, `Block`,
  `IfThenElse`).  A `_Tensor_` node carries its name, its (optional)
  backing buffer, its formal axis names and its (optional) inline-expansion
  body, which is what the mutator reads from it.  Shape expressions of
  tensors/buffers are omitted: no embedded code path reads them.
* C++ in-place mutation of an `Expr*` becomes a function returning the new
  expression; the mutator's member state (`inline_code`, `temp_buffer`,
  `memory_local`) is threaded through the traversal in statement order as a
  `MutFlags` value, exactly following the assignments in the source.
* Every recursive function over the tree takes an explicit fuel argument
  and returns `none` when the fuel runs out, when a `CHECK` fails, or when
  the C++ code would crash (`.at` on a missing key, null dereference).  The
  C++ recursion in `Visit(Load)` re-enters the freshly substituted
  expression, so it can genuinely diverge; fuel makes the embedding total
  while keeping divergence observable (`none` for every fuel).
* `optim::IRCopy` deep-copies a node before editing it; on pure values a
  copy is the identity, so the copy/edit/assign dance of the source becomes
  plain rebinding.
-/

namespace CINN

/-- String suffix test, `utils::Endswith` of the source. -/
def strEndsWith (s suf : String) : Bool :=
  s.data.reverse.take suf.data.length == suf.data.reverse

/-- String prefix test, `utils::Startswith` of the source. -/
def strStartsWith (s pre : String) : Bool :=
  s.data.take pre.data.length == pre.data

/-- Drop the first `n` characters (`substr(n, …)`). -/
def strDrop (s : String) (n : Nat) : String := String.mk (s.data.drop n)

/-- Drop the last `n` characters (`substr(0, size()-n)`). -/
def strDropRight (s : String) (n : Nat) : String :=
  String.mk (s.data.take (s.data.length - n))

/-- `ir::MemoryType` — the memory scope tag of a buffer. -/
inductive MemoryType where
  | heap
  | gpuLocal
  | gpuShared
  | stack
deriving DecidableEq, Repr

/-- `ir::_Buffer_` as read by the inline pass: its name and memory scope. -/
structure BufferData where
  name : String
  memory_type : MemoryType
deriving DecidableEq, Repr

/--
The IR expression tree (`ir::Expr`), restricted to the node kinds the
embedded passes exercise.  A `tensor` node carries name, optional backing
buffer, formal axis-variable names and the optional inline-expansion body
(§3 of the spec: tensors "carry a name, a memory-scope tag, and an optional
inline-expansion expression").
-/
inductive Expr where
  | intImm (n : Int)
  | var (name : String)
  | add (a b : Expr)
  | mul (a b : Expr)
  | load (tensor : Expr) (indices : List Expr)
  | tensor (name : String) (buffer : Option BufferData) (axes : List String)
      (body : Option Expr)
  | store (tensor : Expr) (value : Expr) (indices : List Expr)
  | forE (min extent body : Expr)
  | polyFor (min extent inc body : Expr)
  | block (stmts : List Expr)
  | ifThenElse (cond true_case : Expr) (false_case : Option Expr)
deriving Repr

/-- `ir::Tensor` as stored in the global tensor map. -/
structure TensorData where
  name : String
  buffer : Option BufferData
  axes : List String
  body : Option Expr
deriving Repr

/-- Turn a map record back into an embedded `_Tensor_` node
(`*expr = (*all_tensor_map_)[no_cache_name]`). -/
def TensorData.toExpr (t : TensorData) : Expr :=
  .tensor t.name t.buffer t.axes t.body

/-- `node->tensor.as_tensor()`: view an expression as a tensor node. -/
def Expr.asTensor : Expr → Option TensorData
  | .tensor nm buf axes body => some ⟨nm, buf, axes, body⟩
  | _ => none

/-- The global `std::map<std::string, ir::Tensor>`. -/
def TMap := List (String × TensorData)

/-- `map.at(k)` / `map.count(k)` lookup. -/
def tmapLookup : TMap → String → Option TensorData
  | [], _ => none
  | (k, v) :: m, n => if k == n then some v else tmapLookup m n

/-- The per-tensor scheduling annotations (`poly::Stage`) that the inline
pass reads: the inlined flag, the ordered axis names, and the compute-at
relations (`GetComputeAts()`, a map from parent tensor name to the nesting
level). -/
structure StageInfo where
  inlined : Bool
  axis_names : List String
  compute_ats : List (String × Nat)
deriving Repr

/-- `poly::StageMap`, indexed by tensor name. -/
def StageMap := String → StageInfo

/-- The member state of `TensorInlineExpandMutator`, threaded through the
traversal in statement order. -/
structure MutFlags where
  inline_code : Bool
  temp_buffer : Bool
  memory_local : Bool
deriving DecidableEq, Repr

/-- The initial mutator state: all three flags start `false`. -/
def flags0 : MutFlags := ⟨false, false, false⟩

/-- The constructor arguments of `TensorInlineExpandMutator`. -/
structure Ctx where
  tensor_name : String
  all_tensor_map : TMap
  stages : StageMap

/-- Apply a fallible transformation to every element of a list, failing if
any element fails. -/
def mapOpt (g : Expr → Option Expr) : List Expr → Option (List Expr)
  | [] => some []
  | x :: xs =>
    match g x, mapOpt g xs with
    | some y, some ys => some (y :: ys)
    | _, _ => none

/-- Apply a fallible transformation to an optional expression (used for the
optional `false_case` of `IfThenElse`). -/
def mapOptE (g : Expr → Option Expr) : Option Expr → Option (Option Expr)
  | none => some none
  | some x =>
    match g x with
    | some y => some (some y)
    | none => none

/--
Modelled from the spec: the variable-substitution helper underlying both
`ReplaceVarWithExpr` (from `cinn/optim/replace_var_with_expr.h`) and
`_Tensor_::inline_expanded`, neither of which is under `src/`.  Per the
spec it substitutes "the load's actual index expressions bound to the
expansion's formal index variables": every occurrence of a bound variable
is replaced by its image; tensor nodes are atomic (the traversal of the
framework never descends into a tensor's stored body).  `none` only when
the fuel runs out.
-/
def substVars : Nat → List (String × Expr) → Expr → Option Expr
  | 0, _, _ => none
  | f + 1, σ, e =>
    match e with
    | .intImm n => some (.intImm n)
    | .var x =>
      match σ.lookup x with
      | some r => some r
      | none => some (.var x)
    | .add a b =>
      match substVars f σ a, substVars f σ b with
      | some a', some b' => some (.add a' b')
      | _, _ => none
    | .mul a b =>
      match substVars f σ a, substVars f σ b with
      | some a', some b' => some (.mul a' b')
      | _, _ => none
    | .load t ixs =>
      match substVars f σ t, mapOpt (substVars f σ) ixs with
      | some t', some ixs' => some (.load t' ixs')
      | _, _ => none
    | .tensor nm buf axes body => some (.tensor nm buf axes body)
    | .store t v ixs =>
      match substVars f σ t, substVars f σ v, mapOpt (substVars f σ) ixs with
      | some t', some v', some ixs' => some (.store t' v' ixs')
      | _, _, _ => none
    | .forE mn ext bd =>
      match substVars f σ mn, substVars f σ ext, substVars f σ bd with
      | some mn', some ext', some bd' => some (.forE mn' ext' bd')
      | _, _, _ => none
    | .polyFor mn ext inc bd =>
      match substVars f σ mn, substVars f σ ext, substVars f σ inc,
            substVars f σ bd with
      | some mn', some ext', some inc', some bd' =>
        some (.polyFor mn' ext' inc' bd')
      | _, _, _, _ => none
    | .block stmts =>
      match mapOpt (substVars f σ) stmts with
      | some stmts' => some (.block stmts')
      | none => none
    | .ifThenElse c t fc =>
      match substVars f σ c, substVars f σ t, mapOptE (substVars f σ) fc with
      | some c', some t', some fc' => some (.ifThenElse c' t' fc')
      | _, _, _ => none

/-- `ReplaceVarWithExpr(&e, Var(v), r)`: modelled from the spec, replace
every occurrence of the variable `v` in `e` by `r`. -/
def ReplaceVarWithExpr (f : Nat) (e : Expr) (v : String) (r : Expr) : Option Expr :=
  substVars f [(v, r)] e

/--
The compute-at index-erasure loop of `TensorInlineExpandMutator::Visit(Load)`
(lines 96–102 and 117–123 of `compute_inline_expand.cc`) applied to one
index expression: for `j = 0 .. level` replace the variable named
`axis_names[j]` by the constant `0`.  The C++ `operator[]` on the axis-name
vector is unchecked; out-of-range positions are modelled by the empty name.
-/
def zeroAxes (f : Nat) (axis_names : List String) (level : Nat) (ix : Expr) :
    Option Expr :=
  (List.range (level + 1)).foldlM
    (fun acc j => ReplaceVarWithExpr f acc (axis_names.getD j "") (.intImm 0)) ix

/-- Modelled from the spec: `_Tensor_::inline_expanded(indices)` — the
tensor's inline-expansion body with each formal axis variable positionally
bound to the corresponding actual index expression.  The body being absent
is the fatal "inline tensor missing its expansion expression" precondition
violation of §7. -/
def inline_expanded (f : Nat) (axes : List String) (body : Option Expr)
    (indices : List Expr) : Option Expr :=
  match body with
  | some b => substVars f (axes.zip indices) b
  | none => none

/-- Visit a list of child expressions in order, threading the mutator state
through them (C++ member state persists across sibling visits). -/
def runSeq (v : MutFlags → Expr → Option (Expr × MutFlags)) :
    MutFlags → List Expr → Option (List Expr × MutFlags)
  | s, [] => some ([], s)
  | s, x :: xs =>
    match v s x with
    | some (y, s₁) =>
      match runSeq v s₁ xs with
      | some (ys, s₂) => some (y :: ys, s₂)
      | none => none
    | none => none

/-- The plain recursive visit of a `Load` node's tensor slot and then its
indices (the bodies of lines 139–146 and 147–154 of
`compute_inline_expand.cc`, both `Visit(&node->tensor, …)` followed by the
per-index copy/visit/assign loop), abstracted over the recursive visitor. -/
def loadDefault (v : MutFlags → Expr → Option (Expr × MutFlags))
    (s : MutFlags) (tslot : Expr) (ixs : List Expr) :
    Option (Expr × MutFlags) :=
  match v s tslot with
  | some (t', s₁) =>
    match runSeq v s₁ ixs with
    | some (ixs', s₂) => some (.load t' ixs', s₂)
    | none => none
  | none => none

/--
`TensorInlineExpandMutator::Visit`, the dispatching traversal of
`compute_inline_expand.cc` over the embedded node kinds.  The overridden
handlers (`_Var_`, `_Tensor_`, `Load`) follow the source line by line; all
other kinds fall through to the structural defaults of `IRMutator`
(`cinn/ir/ir_mutator.h`): binary ops visit `a` then `b`; `For` visits min,
extent, body; `PolyFor` visits body then inc (its min and extent are not
visited by the default); `Store` visits value, tensor, indices; `Block`,
`IfThenElse` visit their members in order.  `none` models fuel exhaustion,
a failed `CHECK`, or a crash (`.at` on an absent key / null dereference).
-/
def TensorInlineExpandMutator.Visit :
    Nat → Ctx → MutFlags → Expr → Option (Expr × MutFlags)
  | 0, _, _, _ => none
  | f + 1, c, s, e =>
    match e with
    | .intImm n => some (.intImm n, s)
    | .var x =>
      -- Visit(_Var_): zero block/thread axis variables inside inline code
      -- on a temp buffer (lines 48–54).
      if s.inline_code && s.temp_buffer &&
          (strStartsWith x "blockIdx" ||
            (strStartsWith x "threadIdx" && s.memory_local)) then
        some (.intImm 0, s)
      else
        some (.var x, s)
    | .tensor nm buf axes body =>
      -- Visit(_Tensor_): redirect a heap write-cache tensor to its
      -- non-cache counterpart (lines 56–64).
      if s.inline_code && strEndsWith nm "_write_cache" then
        match tmapLookup c.all_tensor_map nm with
        | none => none
        | some trec =>
          match trec.buffer with
          | none => none
          | some tb =>
            if tb.memory_type = .heap then
              match tmapLookup c.all_tensor_map (strDropRight nm 12) with
              | none => none  -- CHECK(all_tensor_map_->count(no_cache_name))
              | some t' => some (t'.toExpr, s)
            else
              some (.tensor nm buf axes body, s)
      else
        some (.tensor nm buf axes body, s)
    | .add a b =>
      match TensorInlineExpandMutator.Visit f c s a with
      | some (a', s₁) =>
        match TensorInlineExpandMutator.Visit f c s₁ b with
        | some (b', s₂) => some (.add a' b', s₂)
        | none => none
      | none => none
    | .mul a b =>
      match TensorInlineExpandMutator.Visit f c s a with
      | some (a', s₁) =>
        match TensorInlineExpandMutator.Visit f c s₁ b with
        | some (b', s₂) => some (.mul a' b', s₂)
        | none => none
      | none => none
    | .load tslot ixs =>
      -- Visit(Load), lines 66–155.
      match tslot.asTensor with
      | some td =>
        if td.name = c.tensor_name then
          -- lines 69–73: substitute the inline expansion, then re-visit the
          -- substituted expression with inline_code set.
          match inline_expanded f td.axes td.body ixs with
          | some ex =>
            match TensorInlineExpandMutator.Visit f c
                { s with inline_code := true } ex with
            | some (e', s') => some (e', { s' with inline_code := false })
            | none => none
          | none => none
        else
          match td.buffer with
          | some eb =>
            if s.inline_code then
              -- line 75: is_heap from the global map (`.at` may throw,
              -- `->buffer` may be null).
              match tmapLookup c.all_tensor_map td.name with
              | none => none
              | some trec =>
                match trec.buffer with
                | none => none
                | some tb =>
                  if strEndsWith eb.name "_write_cache" &&
                      tb.memory_type = MemoryType.heap then
                    -- lines 76–104
                    if (tmapLookup c.all_tensor_map
                        (strDropRight (strDrop eb.name 1) 12)).isSome then
                      -- lines 79–81: revisit only the tensor slot (the
                      -- redirect); the indices are left untouched.
                      match TensorInlineExpandMutator.Visit f c s tslot with
                      | some (t', s₁) => some (.load t' ixs, s₁)
                      | none => none
                    else
                      -- lines 82–104: zero the compute-at axes in every
                      -- index; no recursive visiting in this branch.
                      let st := c.stages td.name
                      if st.compute_ats.length ≤ 1 then
                        match st.compute_ats with
                        | [(_, lvl)] =>
                          match mapOpt (zeroAxes f st.axis_names lvl) ixs with
                          | some ixs' => some (.load tslot ixs', s)
                          | none => none
                        | _ => some (.load tslot ixs, s)
                      else
                        none  -- CHECK_LE(compute_ats.size(), 1) fails
                  else if strEndsWith eb.name "_write_cache" ||
                      strEndsWith eb.name "_read_cache" ||
                      strEndsWith eb.name "_temp_buffer" then
                    -- lines 105–138
                    let st := c.stages td.name
                    if st.compute_ats.length ≤ 1 then
                      let zres :=
                        match st.compute_ats with
                        | [(_, lvl)] => mapOpt (zeroAxes f st.axis_names lvl) ixs
                        | _ => some ixs
                      match zres with
                      | some ixs₁ =>
                        -- lines 125–130: save the flags, enter the temp
                        -- buffer, possibly upgrade memory_local.
                        let keep_buffer := s.temp_buffer
                        let keep_memory_local := s.memory_local
                        let s₁ : MutFlags :=
                          { s with
                            temp_buffer := true,
                            memory_local := s.memory_local ||
                              (tb.memory_type = MemoryType.gpuLocal) }
                        match TensorInlineExpandMutator.Visit f c s₁ tslot with
                        | some (t', s₂) =>
                          match runSeq (TensorInlineExpandMutator.Visit f c)
                              s₂ ixs₁ with
                          | some (ixs₂, s₃) =>
                            some (.load t' ixs₂,
                              { s₃ with
                                temp_buffer := keep_buffer,
                                memory_local := keep_memory_local })
                          | none => none
                        | none => none
                      | none => none
                    else
                      none  -- CHECK_LE(compute_ats.size(), 1) fails
                  else
                    -- lines 139–146: plain recursive visit.
                    loadDefault (TensorInlineExpandMutator.Visit f c) s tslot ixs
            else
              -- lines 147–154 (condition on line 74 is false).
              loadDefault (TensorInlineExpandMutator.Visit f c) s tslot ixs
          | none =>
            -- buffer undefined: line 74 is false, fall to lines 147–154.
            loadDefault (TensorInlineExpandMutator.Visit f c) s tslot ixs
      | none =>
        -- `as_tensor()` returned null: line 74 dereferences the null
        -- tensor handle when inline_code is set (a crash); otherwise the
        -- final else of lines 147–154 runs.
        if s.inline_code then
          none
        else
          loadDefault (TensorInlineExpandMutator.Visit f c) s tslot ixs
    | .store t v ixs =>
      -- IRMutator default for Store: value, tensor, indices.
      match TensorInlineExpandMutator.Visit f c s v with
      | some (v', s₁) =>
        match TensorInlineExpandMutator.Visit f c s₁ t with
        | some (t', s₂) =>
          match runSeq (TensorInlineExpandMutator.Visit f c) s₂ ixs with
          | some (ixs', s₃) => some (.store t' v' ixs', s₃)
          | none => none
        | none => none
      | none => none
    | .forE mn ext bd =>
      -- IRMutator default for For: min, extent, body.
      match TensorInlineExpandMutator.Visit f c s mn with
      | some (mn', s₁) =>
        match TensorInlineExpandMutator.Visit f c s₁ ext with
        | some (ext', s₂) =>
          match TensorInlineExpandMutator.Visit f c s₂ bd with
          | some (bd', s₃) => some (.forE mn' ext' bd', s₃)
          | none => none
        | none => none
      | none => none
    | .polyFor mn ext inc bd =>
      -- IRMutator default for PolyFor: body then inc; min and extent are
      -- not visited.
      match TensorInlineExpandMutator.Visit f c s bd with
      | some (bd', s₁) =>
        match TensorInlineExpandMutator.Visit f c s₁ inc with
        | some (inc', s₂) => some (.polyFor mn ext inc' bd', s₂)
        | none => none
      | none => none
    | .block stmts =>
      match runSeq (TensorInlineExpandMutator.Visit f c) s stmts with
      | some (stmts', s₁) => some (.block stmts', s₁)
      | none => none
    | .ifThenElse cond tc fc =>
      match TensorInlineExpandMutator.Visit f c s cond with
      | some (cond', s₁) =>
        match TensorInlineExpandMutator.Visit f c s₁ tc with
        | some (tc', s₂) =>
          match fc with
          | none => some (.ifThenElse cond' tc' none, s₂)
          | some fe =>
            match TensorInlineExpandMutator.Visit f c s₂ fe with
            | some (fe', s₃) => some (.ifThenElse cond' tc' (some fe'), s₃)
            | none => none
        | none => none
      | none => none

/--
The structural default traversal of `IRMutator` (`cinn/ir/ir_mutator.h`),
embedded for a derived visitor that overrides only `Visit(_Var_)` — the
override pattern the repository itself uses.  `onVar` is the override:
`some r` rewrites the variable node to `r`, `none` leaves it (the base
behaviour).  All other kinds use the default handlers of the header:
unary/binary ops visit their operands in order; `For` visits min, extent,
body; `PolyFor` visits body then inc; `Load` visits only its indices;
`_Tensor_` visits only its shape (omitted here, hence a no-op); `Store`
visits value, tensor, indices; `Block` and `IfThenElse` visit their members
in order.  Fuel-out is `none`.
-/
def IRMutator.Visit (onVar : String → Option Expr) :
    Nat → Expr → Option Expr
  | 0, _ => none
  | f + 1, e =>
    match e with
    | .intImm n => some (.intImm n)
    | .var x =>
      match onVar x with
      | some r => some r
      | none => some (.var x)
    | .add a b =>
      match IRMutator.Visit onVar f a, IRMutator.Visit onVar f b with
      | some a', some b' => some (.add a' b')
      | _, _ => none
    | .mul a b =>
      match IRMutator.Visit onVar f a, IRMutator.Visit onVar f b with
      | some a', some b' => some (.mul a' b')
      | _, _ => none
    | .load t ixs =>
      -- lines 128–132: `for (auto &idx : node->indices) Visit(&idx, &idx);`
      -- the tensor handle is not visited.
      match mapOpt (IRMutator.Visit onVar f) ixs with
      | some ixs' => some (.load t ixs')
      | none => none
    | .tensor nm buf axes body => some (.tensor nm buf axes body)
    | .store t v ixs =>
      match IRMutator.Visit onVar f v, IRMutator.Visit onVar f t,
            mapOpt (IRMutator.Visit onVar f) ixs with
      | some v', some t', some ixs' => some (.store t' v' ixs')
      | _, _, _ => none
    | .forE mn ext bd =>
      match IRMutator.Visit onVar f mn, IRMutator.Visit onVar f ext,
            IRMutator.Visit onVar f bd with
      | some mn', some ext', some bd' => some (.forE mn' ext' bd')
      | _, _, _ => none
    | .polyFor mn ext inc bd =>
      -- lines 69–75: only body and inc are visited; min and extent are not.
      match IRMutator.Visit onVar f bd, IRMutator.Visit onVar f inc with
      | some bd', some inc' => some (.polyFor mn ext inc' bd')
      | _, _ => none
    | .block stmts =>
      match mapOpt (IRMutator.Visit onVar f) stmts with
      | some stmts' => some (.block stmts')
      | none => none
    | .ifThenElse c tc fc =>
      match IRMutator.Visit onVar f c, IRMutator.Visit onVar f tc,
            mapOptE (IRMutator.Visit onVar f) fc with
      | some c', some tc', some fc' => some (.ifThenElse c' tc' fc')
      | _, _, _ => none

/--
Modelled from the spec: the tensor-reference scan underlying
`ir::CollectIRNodes` / `ir::CollectLoadTensors` (from `cinn/ir/ir_utils`,
not under `src/`).  §4.2: "Scan the target expression tree for all
distinct tensors that are both referenced and flagged inlined"; the scan
walks the whole tree (including `PolyFor` min/extent) and records each
tensor node it meets, tagged with whether the occurrence is the handle of a
`Load`.  Tensor bodies are metadata and are not scanned.
`collectList` concatenates the scan over a list of children.
-/
def collectList (g : Expr → Option (List (Bool × String))) :
    List Expr → Option (List (Bool × String))
  | [] => some []
  | x :: xs =>
    match g x, collectList g xs with
    | some r, some rs => some (r ++ rs)
    | _, _ => none

/-- The tensor-reference scan itself; see `collectList` above. -/
def tensorRefs : Nat → Expr → Option (List (Bool × String))
  | 0, _ => none
  | f + 1, e =>
    match e with
    | .intImm _ => some []
    | .var _ => some []
    | .add a b =>
      match tensorRefs f a, tensorRefs f b with
      | some ra, some rb => some (ra ++ rb)
      | _, _ => none
    | .mul a b =>
      match tensorRefs f a, tensorRefs f b with
      | some ra, some rb => some (ra ++ rb)
      | _, _ => none
    | .load t ixs =>
      match (match t.asTensor with
             | some td => some [(true, td.name)]
             | none => tensorRefs f t),
            collectList (tensorRefs f) ixs with
      | some rt, some rixs => some (rt ++ rixs)
      | _, _ => none
    | .tensor nm _ _ _ => some [(false, nm)]
    | .store t v ixs =>
      match tensorRefs f t, tensorRefs f v, collectList (tensorRefs f) ixs with
      | some rt, some rv, some rixs => some (rt ++ rv ++ rixs)
      | _, _, _ => none
    | .forE mn ext bd =>
      match tensorRefs f mn, tensorRefs f ext, tensorRefs f bd with
      | some r₁, some r₂, some r₃ => some (r₁ ++ r₂ ++ r₃)
      | _, _, _ => none
    | .polyFor mn ext inc bd =>
      match tensorRefs f mn, tensorRefs f ext, tensorRefs f inc,
            tensorRefs f bd with
      | some r₁, some r₂, some r₃, some r₄ => some (r₁ ++ r₂ ++ r₃ ++ r₄)
      | _, _, _, _ => none
    | .block stmts =>
      match collectList (tensorRefs f) stmts with
      | some r => some r
      | none => none
    | .ifThenElse c tc fc =>
      match tensorRefs f c, tensorRefs f tc,
            (match fc with
             | none => some []
             | some fe => tensorRefs f fe) with
      | some r₁, some r₂, some r₃ => some (r₁ ++ r₂ ++ r₃)
      | _, _, _ => none

/-- The first scan of `ComputeInlineExpand` (line 204): distinct names of
tensor nodes occurring in the tree whose stage is flagged inlined
(`ir::CollectIRNodes` with the inlined predicate; `CollectIRNodes` returns
a `std::set`, hence the deduplication (`dedup`)). -/
def CollectInlineTensors (f : Nat) (stages : StageMap) (e : Expr) :
    Option (List String) :=
  match tensorRefs f e with
  | some refs =>
    some (((refs.map Prod.snd).filter (fun n => (stages n).inlined)).dedup)
  | none => none

/-- The re-scan of the loop (line 217): distinct names of tensors that are
the handle of some `Load` in the tree and whose stage is flagged inlined
(`ir::CollectLoadTensors` with the inlined predicate). -/
def CollectLoadTensors (f : Nat) (stages : StageMap) (e : Expr) :
    Option (List String) :=
  match tensorRefs f e with
  | some refs =>
    some ((((refs.filter Prod.fst).map Prod.snd).filter
      (fun n => (stages n).inlined)).dedup)
  | none => none

/-- One pass of the `for (const auto &t : inline_tensors)` loop body
(lines 212–215): run a fresh `TensorInlineExpandMutator` over the whole
tree for each collected tensor name in turn. -/
def expandRound (vf : Nat) (tmap : TMap) (stages : StageMap) :
    List String → Expr → Option Expr
  | [], e => some e
  | t :: ts, e =>
    match TensorInlineExpandMutator.Visit vf ⟨t, tmap, stages⟩ flags0 e with
    | some (e', _) => expandRound vf tmap stages ts e'
    | none => none

/-- The `while (!inline_tensors.empty())` loop of `ComputeInlineExpand`
(lines 211–219), with `lf` bounding the number of iterations: an input on
which the C++ loop never terminates is `none` for every bound. -/
def inlineLoop (vf : Nat) (tmap : TMap) (stages : StageMap) :
    Nat → List String → Expr → Option Expr
  | _, [], e => some e
  | 0, _ :: _, _ => none
  | lf + 1, t :: ts, e =>
    match expandRound vf tmap stages (t :: ts) e with
    | some e' =>
      match CollectLoadTensors vf stages e' with
      | some names => inlineLoop vf tmap stages lf names e'
      | none => none
    | none => none

/-- `optim::ComputeInlineExpand(expr, stages, all_tensor_map)`
(lines 202–220). -/
def ComputeInlineExpand (lf vf : Nat) (tmap : TMap) (stages : StageMap)
    (e : Expr) : Option Expr :=
  match CollectInlineTensors vf stages e with
  | some names => inlineLoop vf tmap stages lf names e
  | none => none

/-- "No `Load` node anywhere in the tree references a tensor whose stage
metadata marks it inlined" — the postcondition of the pass, stated as a
recursive predicate over the tree (tensor bodies are metadata, not part of
the tree). -/
def NoInlineLoadRef (stages : StageMap) : Expr → Prop
  | .intImm _ => True
  | .var _ => True
  | .add a b => NoInlineLoadRef stages a ∧ NoInlineLoadRef stages b
  | .mul a b => NoInlineLoadRef stages a ∧ NoInlineLoadRef stages b
  | .load t ixs =>
    (∀ td, t.asTensor = some td → (stages td.name).inlined = false) ∧
    (t.asTensor = none → NoInlineLoadRef stages t) ∧
    ∀ ix ∈ ixs, NoInlineLoadRef stages ix
  | .tensor _ _ _ _ => True
  | .store t v ixs =>
    NoInlineLoadRef stages t ∧ NoInlineLoadRef stages v ∧
    ∀ ix ∈ ixs, NoInlineLoadRef stages ix
  | .forE mn ext bd =>
    NoInlineLoadRef stages mn ∧ NoInlineLoadRef stages ext ∧
    NoInlineLoadRef stages bd
  | .polyFor mn ext inc bd =>
    NoInlineLoadRef stages mn ∧ NoInlineLoadRef stages ext ∧
    NoInlineLoadRef stages inc ∧ NoInlineLoadRef stages bd
  | .block stmts => ∀ st ∈ stmts, NoInlineLoadRef stages st
  | .ifThenElse c tc fc =>
    NoInlineLoadRef stages c ∧ NoInlineLoadRef stages tc ∧
    ∀ fe, fc = some fe → NoInlineLoadRef stages fe
termination_by e => sizeOf e
decreasing_by
  all_goals simp_wf
  all_goals try omega
  all_goals (first
    | (have hm := List.sizeOf_lt_of_mem ‹_›; omega)
    | (subst_vars; simp; omega))

/-- A device-axis binding recorded in a stage's for-loop infos: the axis
identity (grid or intra-group, with its ordinal) and the loop extent. -/
inductive AxisKind where
  | grid
  | group
deriving DecidableEq, Repr

/-- One axis-bound loop of a stage. -/
structure ForloopInfo where
  kind : AxisKind
  dim : Nat
  extent : Nat
deriving DecidableEq, Repr

/--
Modelled from the spec: `GatherAxisInfoFromStages` is only declared under
`src/` ("Collect the grid and block dims from a group of stages.  The dims
is the maximum extent of each GPU related forloops"); §4.3 step 1:
"Collect, per axis identity, the maximum extent required across all stages
that use that axis".  Each stage contributes its axis-bound loops; the
gathered launch dimension of an axis is the running maximum of the extents
bound to it, starting from 0.
-/
def GatherAxisInfoFromStages (stage_group : List (List ForloopInfo))
    (k : AxisKind) (d : Nat) : Nat :=
  stage_group.foldl
    (fun acc st =>
      st.foldl
        (fun a i => if i.kind = k ∧ i.dim = d then max a i.extent else a)
        acc)
    0

/--
Sufficient syntactic conditions under which `TensorInlineExpandMutator`
leaves a subtree untouched in any flag state: no block/thread-axis
variable names, no tensor named with the write-cache suffix, every load
handle is a tensor node distinct from the target whose buffer (when
defined) has none of the three cache/temp suffixes and has a resolvable
map entry with a defined buffer.  `false` when the fuel runs out, so
`Quiet f c e = true` also certifies that `f` is enough fuel for `e`.
-/
def Quiet : Nat → Ctx → Expr → Bool
  | 0, _, _ => false
  | f + 1, c, e =>
    match e with
    | .intImm _ => true
    | .var x => !strStartsWith x "blockIdx" && !strStartsWith x "threadIdx"
    | .add a b => Quiet f c a && Quiet f c b
    | .mul a b => Quiet f c a && Quiet f c b
    | .load (.tensor nm buf axes body) ixs =>
      Quiet f c (.tensor nm buf axes body) && !(nm == c.tensor_name) &&
      (match buf with
       | none => true
       | some eb =>
         !strEndsWith eb.name "_write_cache" &&
         !strEndsWith eb.name "_read_cache" &&
         !strEndsWith eb.name "_temp_buffer" &&
         (match tmapLookup c.all_tensor_map nm with
          | some trec => trec.buffer.isSome
          | none => false)) &&
      ixs.all (Quiet f c)
    | .load _ _ => false
    | .tensor nm _ _ _ => !strEndsWith nm "_write_cache"
    | .store t v ixs => Quiet f c t && Quiet f c v && ixs.all (Quiet f c)
    | .forE mn ext bd => Quiet f c mn && Quiet f c ext && Quiet f c bd
    | .polyFor _ _ inc bd => Quiet f c bd && Quiet f c inc
    | .block stmts => stmts.all (Quiet f c)
    | .ifThenElse cond tc fc =>
      Quiet f c cond && Quiet f c tc &&
      (match fc with
       | none => true
       | some fe => Quiet f c fe)

/-! ### Concrete fixtures used by witnesses and counterexamples -/

/-- A stage map with no scheduling metadata: nothing inlined, no axes, no
compute-at relation. -/
def stagesNone : StageMap := fun _ => ⟨false, [], []⟩

/-- Plain tensor `A` (no buffer, no expansion). -/
def tA : Expr := .tensor "A" none [] none

/-- Plain tensor `B` (no buffer, no expansion). -/
def tB : Expr := .tensor "B" none [] none

/-- Inline expansion body `E(i,j) = A[i,j] + B[j]` of the spec's example. -/
def bodyT : Expr := .add (.load tA [.var "i", .var "j"]) (.load tB [.var "j"])

/-- The inlined tensor `T` of the spec's example, with formal axes `i, j`. -/
def tT : Expr := .tensor "T" none ["i", "j"] (some bodyT)

/-- Mutator context for expanding `T`; `A` and `B` carry no buffer, so the
global map is not consulted for them. -/
def ctxC2 : Ctx := ⟨"T", [], stagesNone⟩

/-- Tensor node for the non-termination input: `T` is inlined with the
trivial expansion `1` and is loaded only inside the `min` slot of a
`PolyFor`. -/
def tT3 : Expr := .tensor "T" none [] (some (.intImm 1))

/-- The failing input for the termination claim: a `PolyFor` whose `min`
expression loads the inlined tensor `T`.  The tree has no inline-to-inline
dependency at all (the expansion of `T` is the constant `1`). -/
def eC3 : Expr :=
  .polyFor (.load tT3 [.intImm 0]) (.intImm 10) (.intImm 1) (.intImm 0)

/-- Stage map for the non-termination input: only `T` is inlined. -/
def stagesC3 : StageMap :=
  fun n => if n = "T" then ⟨true, [], []⟩ else ⟨false, [], []⟩

/-- Tensor map for the non-termination input. -/
def tmapC3 : TMap := [("T", ⟨"T", none, [], some (.intImm 1)⟩)]

/-- A heap write-cache tensor whose load sits inside inline code; its
no-cache counterpart `W` is present in the map, so the load is redirected
and its indices are never zeroed. -/
def tWwc : Expr :=
  .tensor "W_write_cache" (some ⟨"_W_write_cache", .heap⟩) [] none

/-- Inlined tensor whose expansion loads the heap write-cache tensor with
the compute-at axis variable `i0` as index. -/
def tT5 : Expr := .tensor "T" none [] (some (.load tWwc [.var "i0"]))

/-- Tensor map for the compute-at-zeroing counterexample. -/
def tmapC5 : TMap :=
  [("W_write_cache", ⟨"W_write_cache", some ⟨"_W_write_cache", .heap⟩, [], none⟩),
   ("W", ⟨"W", some ⟨"_W", .heap⟩, [], none⟩)]

/-- Stage map for the compute-at-zeroing counterexample: the cache tensor
has three axes and computes at level 1. -/
def stagesC5 : StageMap :=
  fun n =>
    if n = "W_write_cache" then ⟨false, ["i0", "i1", "i2"], [("Par", 1)]⟩
    else ⟨false, [], []⟩

/-- A tensor whose own name carries no cache suffix but whose backing
buffer is named like a heap write-cache: the redirect never fires for it. -/
def tdC6 : Expr := .tensor "C" (some ⟨"_B_write_cache", .heap⟩) [] none

/-- Inlined tensor whose expansion loads `tdC6`. -/
def tT6 : Expr := .tensor "T" none [] (some (.load tdC6 [.intImm 0]))

/-- Tensor map for the cache-identity counterexample: both `C` (heap) and
the stripped counterpart `B` are present. -/
def tmapC6 : TMap :=
  [("C", ⟨"C", some ⟨"_C", .heap⟩, [], none⟩),
   ("B", ⟨"B", some ⟨"_B", .heap⟩, [], none⟩)]

/-- Device-local temp tensor (outer load of the scratch-erasure
counterexample). -/
def tP : Expr := .tensor "P" (some ⟨"p_temp_buffer", .gpuLocal⟩) [] none

/-- Device-shared temp tensor (inner load of the scratch-erasure
counterexample). -/
def tQ : Expr := .tensor "Q" (some ⟨"q_temp_buffer", .gpuShared⟩) [] none

/-- Inlined tensor whose expansion loads the shared temp tensor nested
inside an index of the local temp tensor, with a thread-axis variable as
the innermost index. -/
def tT7 : Expr :=
  .tensor "T" none [] (some (.load tP [.load tQ [.var "threadIdx.x"]]))

/-- Tensor map for the scratch-erasure counterexample. -/
def tmapC7 : TMap :=
  [("P", ⟨"P", some ⟨"p_temp_buffer", .gpuLocal⟩, [], none⟩),
   ("Q", ⟨"Q", some ⟨"q_temp_buffer", .gpuShared⟩, [], none⟩)]

/-- The simultaneous form of the compute-at zeroing substitution: position
`j` of the axis-name vector maps to the constant zero for `j = 0 .. level`
(out-of-range positions give the empty name, as in `zeroAxes`). -/
def zeroSigma (axis_names : List String) (level : Nat) : List (String × Expr) :=
  (List.range (level + 1)).map (fun j => (axis_names.getD j "", Expr.intImm 0))

/-- A derived-visitor override that rewrites the variable `x` to the
constant `0` — used to observe which slots the default traversal enters. -/
def onVarX : String → Option Expr :=
  fun v => if v = "x" then some (.intImm 0) else none

/-- A `PolyFor` carrying the observed variable in all four slots. -/
def eC4 : Expr := .polyFor (.var "x") (.var "x") (.var "x") (.var "x")

/-- A `Load` carrying the observed variable in its handle slot and in its
only index. -/
def eC4load : Expr := .load (.var "x") [.var "x"]

/-- A read-cache temp tensor with three axes computing at level 1 — the
spec's compute-at zeroing example. -/
def tR : Expr := .tensor "R" (some ⟨"r_read_cache", .gpuShared⟩) [] none

/-- Tensor map for the compute-at zeroing witness. -/
def tmapC5w : TMap :=
  [("R", ⟨"R", some ⟨"r_read_cache", .gpuShared⟩, [], none⟩)]

/-- Stage map for the compute-at zeroing witness: `R` has axes
`i0, i1, i2` and computes at level 1. -/
def stagesC5w : StageMap :=
  fun n =>
    if n = "R" then ⟨false, ["i0", "i1", "i2"], [("Par", 1)]⟩
    else ⟨false, [], []⟩

/-- A tensor whose own name and buffer name both carry the write-cache
suffix, backed by heap scope — the standard cache-alias shape. -/
def tAwc : Expr :=
  .tensor "A_write_cache" (some ⟨"_A_write_cache", .heap⟩) [] none

/-- Tensor map for the cache-identity witness: the cache tensor and its
non-cache counterpart `A`. -/
def tmapC6w : TMap :=
  [("A_write_cache", ⟨"A_write_cache", some ⟨"_A_write_cache", .heap⟩, [], none⟩),
   ("A", ⟨"A", some ⟨"_A", .heap⟩, [], none⟩)]

/-- A tensor backed by a heap write-cache buffer whose buffer-derived
no-cache counterpart (`Y`) is absent from the map: loads of it take the
zeroing-only branch of the heap write-cache case. -/
def tX : Expr := .tensor "X" (some ⟨"_Y_write_cache", .heap⟩) [] none

/-- Tensor map for the counterpart-absent heap write-cache witness: `X`
is present, the stripped buffer name `Y` is not. -/
def tmapC5x : TMap :=
  [("X", ⟨"X", some ⟨"_Y_write_cache", .heap⟩, [], none⟩)]

/-- Stage map for the counterpart-absent heap write-cache witness: `X`
has axes `i0, i1, i2` and computes at level 1. -/
def stagesC5x : StageMap :=
  fun n =>
    if n = "X" then ⟨false, ["i0", "i1", "i2"], [("Par", 1)]⟩
    else ⟨false, [], []⟩

/-! ### Supporting lemmas -/

theorem runSeq_id (v : MutFlags → Expr → Option (Expr × MutFlags))
    (l : List Expr) (hv : ∀ x ∈ l, ∀ s, v s x = some (x, s)) :
    ∀ s, runSeq v s l = some (l, s) := by
  induction l with
  | nil => intro s; rfl
  | cons x xs ih =>
    intro s
    simp only [runSeq, hv x (by simp)]
    rw [ih (fun y hy s' => hv y (by simp [hy]) s')]

theorem mapOpt_id (g : Expr → Option Expr) (l : List Expr)
    (hg : ∀ x ∈ l, g x = some x) : mapOpt g l = some l := by
  induction l with
  | nil => rfl
  | cons x xs ih =>
    simp only [mapOpt, hg x (by simp)]
    rw [ih (fun y hy => hg y (by simp [hy]))]

theorem loadDefault_id (v : MutFlags → Expr → Option (Expr × MutFlags))
    (tslot : Expr) (ixs : List Expr)
    (hts : ∀ s, v s tslot = some (tslot, s))
    (hixs : ∀ x ∈ ixs, ∀ s, v s x = some (x, s)) :
    ∀ s, loadDefault v s tslot ixs = some (.load tslot ixs, s) := by
  intro s
  simp only [loadDefault, hts s]
  rw [runSeq_id _ _ hixs]

/-- On a `Quiet` subtree the inline-expansion mutator is the identity, in
every flag state. -/
theorem Visit_quiet_id :
    ∀ (f : Nat) (c : Ctx) (e : Expr) (s : MutFlags), Quiet f c e = true →
      TensorInlineExpandMutator.Visit f c s e = some (e, s) := by
  intro f
  induction f with
  | zero => intro c e s h; simp [Quiet] at h
  | succ f ih =>
    intro c e s h
    match e with
    | .intImm n => rfl
    | .var x =>
      simp only [Quiet, Bool.and_eq_true, Bool.not_eq_true'] at h
      simp [TensorInlineExpandMutator.Visit, h.1, h.2]
    | .tensor nm buf axes body =>
      simp only [Quiet, Bool.not_eq_true'] at h
      simp [TensorInlineExpandMutator.Visit, h]
    | .add a b =>
      simp only [Quiet, Bool.and_eq_true] at h
      simp [TensorInlineExpandMutator.Visit, ih c a s h.1, ih c b s h.2]
    | .mul a b =>
      simp only [Quiet, Bool.and_eq_true] at h
      simp [TensorInlineExpandMutator.Visit, ih c a s h.1, ih c b s h.2]
    | .load (.tensor nm buf axes body) ixs =>
      simp only [Quiet, Bool.and_eq_true, Bool.not_eq_true'] at h
      obtain ⟨⟨⟨hslot, hne⟩, hbuf⟩, hixs⟩ := h
      have hne' : ¬(nm = c.tensor_name) := by
        simpa using hne
      have hixs' : ∀ x ∈ ixs, ∀ s', TensorInlineExpandMutator.Visit f c s' x =
          some (x, s') := by
        intro x hx s'
        exact ih c x s' (by
          have := List.all_eq_true.mp hixs x hx
          exact this)
      have hrun : ∀ s', runSeq (TensorInlineExpandMutator.Visit f c) s' ixs =
          some (ixs, s') := runSeq_id _ _ hixs'
      have hslotv : ∀ s', TensorInlineExpandMutator.Visit f c s'
          (.tensor nm buf axes body) = some (.tensor nm buf axes body, s') :=
        fun s' => ih c _ s' hslot
      have hld : ∀ s', loadDefault (TensorInlineExpandMutator.Visit f c) s'
          (.tensor nm buf axes body) ixs =
          some (.load (.tensor nm buf axes body) ixs, s') :=
        loadDefault_id _ _ _ hslotv hixs'
      match buf with
      | none =>
        simp [TensorInlineExpandMutator.Visit, Expr.asTensor, hne', hld]
      | some eb =>
        simp only [Bool.and_eq_true, Bool.not_eq_true'] at hbuf
        obtain ⟨⟨⟨hwc, hrc⟩, htb⟩, hmap⟩ := hbuf
        cases hlk : tmapLookup c.all_tensor_map nm with
        | none => rw [hlk] at hmap; simp at hmap
        | some trec =>
          rw [hlk] at hmap
          simp only at hmap
          cases htrb : trec.buffer with
          | none => rw [htrb] at hmap; simp at hmap
          | some tb =>
            by_cases hic : s.inline_code
            · simp [TensorInlineExpandMutator.Visit, Expr.asTensor, hne', hic,
                hlk, htrb, hwc, hrc, htb, hld]
            · simp [TensorInlineExpandMutator.Visit, Expr.asTensor, hne', hic,
                hld]
    | .load (.intImm n) ixs => simp [Quiet] at h
    | .load (.var x) ixs => simp [Quiet] at h
    | .load (.add a b) ixs => simp [Quiet] at h
    | .load (.mul a b) ixs => simp [Quiet] at h
    | .load (.load t' ixs') ixs => simp [Quiet] at h
    | .load (.store t' v ixs') ixs => simp [Quiet] at h
    | .load (.forE mn ext bd) ixs => simp [Quiet] at h
    | .load (.polyFor mn ext inc bd) ixs => simp [Quiet] at h
    | .load (.block stmts) ixs => simp [Quiet] at h
    | .load (.ifThenElse c' tc fc) ixs => simp [Quiet] at h
    | .store t v ixs =>
      simp only [Quiet, Bool.and_eq_true] at h
      obtain ⟨⟨ht, hv⟩, hixs⟩ := h
      have hixs' : ∀ x ∈ ixs, ∀ s', TensorInlineExpandMutator.Visit f c s' x =
          some (x, s') := fun x hx s' => ih c x s' (List.all_eq_true.mp hixs x hx)
      simp [TensorInlineExpandMutator.Visit, ih c v _ hv, ih c t _ ht,
        runSeq_id _ _ hixs']
    | .forE mn ext bd =>
      simp only [Quiet, Bool.and_eq_true] at h
      simp [TensorInlineExpandMutator.Visit, ih c mn _ h.1.1, ih c ext _ h.1.2,
        ih c bd _ h.2]
    | .polyFor mn ext inc bd =>
      simp only [Quiet, Bool.and_eq_true] at h
      simp [TensorInlineExpandMutator.Visit, ih c bd _ h.1, ih c inc _ h.2]
    | .block stmts =>
      simp only [Quiet] at h
      have hq : ∀ x ∈ stmts, ∀ s', TensorInlineExpandMutator.Visit f c s' x =
          some (x, s') := fun x hx s' => ih c x s' (List.all_eq_true.mp h x hx)
      simp [TensorInlineExpandMutator.Visit, runSeq_id _ _ hq]
    | .ifThenElse cond tc fc =>
      simp only [Quiet, Bool.and_eq_true] at h
      obtain ⟨⟨hc, ht⟩, hf⟩ := h
      match fc with
      | none =>
        simp [TensorInlineExpandMutator.Visit, ih c cond _ hc, ih c tc _ ht]
      | some fe =>
        simp only at hf
        simp [TensorInlineExpandMutator.Visit, ih c cond _ hc, ih c tc _ ht,
          ih c fe _ hf]

theorem runSeq_pres (v : MutFlags → Expr → Option (Expr × MutFlags))
    (hv : ∀ s x out, v s x = some out →
      out.2.temp_buffer = s.temp_buffer ∧ out.2.memory_local = s.memory_local) :
    ∀ (l : List Expr) (s : MutFlags) (out : List Expr × MutFlags),
      runSeq v s l = some out →
      out.2.temp_buffer = s.temp_buffer ∧ out.2.memory_local = s.memory_local := by
  intro l
  induction l with
  | nil =>
    intro s out h
    simp only [runSeq] at h
    cases h
    exact ⟨rfl, rfl⟩
  | cons x xs ih =>
    intro s out h
    simp only [runSeq] at h
    cases hx : v s x with
    | none => rw [hx] at h; cases h
    | some o₁ =>
      obtain ⟨y, s₁⟩ := o₁
      rw [hx] at h
      simp only at h
      cases hxs : runSeq v s₁ xs with
      | none => rw [hxs] at h; cases h
      | some o₂ =>
        obtain ⟨ys, s₂⟩ := o₂
        rw [hxs] at h
        simp only at h
        cases h
        have h₁ := hv s x (y, s₁) hx
        have h₂ := ih s₁ (ys, s₂) hxs
        exact ⟨h₂.1.trans h₁.1, h₂.2.trans h₁.2⟩

theorem loadDefault_pres (v : MutFlags → Expr → Option (Expr × MutFlags))
    (hv : ∀ s x out, v s x = some out →
      out.2.temp_buffer = s.temp_buffer ∧ out.2.memory_local = s.memory_local)
    (tslot : Expr) (ixs : List Expr) (s : MutFlags) (out : Expr × MutFlags)
    (h : loadDefault v s tslot ixs = some out) :
    out.2.temp_buffer = s.temp_buffer ∧ out.2.memory_local = s.memory_local := by
  simp only [loadDefault] at h
  cases ht : v s tslot with
  | none => rw [ht] at h; cases h
  | some o₁ =>
    obtain ⟨t', s₁⟩ := o₁
    rw [ht] at h
    simp only at h
    cases hr : runSeq v s₁ ixs with
    | none => rw [hr] at h; cases h
    | some o₂ =>
      obtain ⟨ixs', s₂⟩ := o₂
      rw [hr] at h
      simp only at h
      cases h
      have h₁ := hv s tslot (t', s₁) ht
      have h₂ := runSeq_pres v hv ixs s₁ (ixs', s₂) hr
      exact ⟨h₂.1.trans h₁.1, h₂.2.trans h₁.2⟩

/-- Whatever subtree it processes and in whatever state it starts, a
completed visit of the inline-expansion mutator hands back `temp_buffer`
and `memory_local` exactly as it found them: every assignment to them in
the source is paired with a save/restore around the processed region. -/
theorem Visit_pres :
    ∀ (f : Nat) (c : Ctx) (e : Expr) (s : MutFlags) (out : Expr × MutFlags),
      TensorInlineExpandMutator.Visit f c s e = some out →
      out.2.temp_buffer = s.temp_buffer ∧ out.2.memory_local = s.memory_local := by
  intro f
  induction f with
  | zero =>
    intro c e s out h
    simp [TensorInlineExpandMutator.Visit] at h
  | succ f ih =>
    intro c e s out h
    have ihv : ∀ s' x out', TensorInlineExpandMutator.Visit f c s' x = some out' →
        out'.2.temp_buffer = s'.temp_buffer ∧
        out'.2.memory_local = s'.memory_local :=
      fun s' x out' hx => ih c x s' out' hx
    cases e with
    | intImm n =>
      simp only [TensorInlineExpandMutator.Visit] at h
      cases h
      exact ⟨rfl, rfl⟩
    | var x =>
      simp only [TensorInlineExpandMutator.Visit] at h
      split at h <;> (cases h; exact ⟨rfl, rfl⟩)
    | tensor nm buf axes body =>
      simp only [TensorInlineExpandMutator.Visit] at h
      repeat' split at h
      all_goals cases h
      all_goals exact ⟨rfl, rfl⟩
    | add a b =>
      simp only [TensorInlineExpandMutator.Visit] at h
      cases ha : TensorInlineExpandMutator.Visit f c s a with
      | none => rw [ha] at h; cases h
      | some o₁ =>
        obtain ⟨a', s₁⟩ := o₁
        rw [ha] at h
        simp only at h
        cases hb : TensorInlineExpandMutator.Visit f c s₁ b with
        | none => rw [hb] at h; cases h
        | some o₂ =>
          obtain ⟨b', s₂⟩ := o₂
          rw [hb] at h
          simp only at h
          cases h
          have h₁ := ihv s a (a', s₁) ha
          have h₂ := ihv s₁ b (b', s₂) hb
          exact ⟨h₂.1.trans h₁.1, h₂.2.trans h₁.2⟩
    | mul a b =>
      simp only [TensorInlineExpandMutator.Visit] at h
      cases ha : TensorInlineExpandMutator.Visit f c s a with
      | none => rw [ha] at h; cases h
      | some o₁ =>
        obtain ⟨a', s₁⟩ := o₁
        rw [ha] at h
        simp only at h
        cases hb : TensorInlineExpandMutator.Visit f c s₁ b with
        | none => rw [hb] at h; cases h
        | some o₂ =>
          obtain ⟨b', s₂⟩ := o₂
          rw [hb] at h
          simp only at h
          cases h
          have h₁ := ihv s a (a', s₁) ha
          have h₂ := ihv s₁ b (b', s₂) hb
          exact ⟨h₂.1.trans h₁.1, h₂.2.trans h₁.2⟩
    | store t v ixs =>
      simp only [TensorInlineExpandMutator.Visit] at h
      cases hv' : TensorInlineExpandMutator.Visit f c s v with
      | none => rw [hv'] at h; cases h
      | some o₁ =>
        obtain ⟨v', s₁⟩ := o₁
        rw [hv'] at h
        simp only at h
        cases ht : TensorInlineExpandMutator.Visit f c s₁ t with
        | none => rw [ht] at h; cases h
        | some o₂ =>
          obtain ⟨t', s₂⟩ := o₂
          rw [ht] at h
          simp only at h
          cases hr : runSeq (TensorInlineExpandMutator.Visit f c) s₂ ixs with
          | none => rw [hr] at h; cases h
          | some o₃ =>
            obtain ⟨ixs', s₃⟩ := o₃
            rw [hr] at h
            simp only at h
            cases h
            have h₁ := ihv s v (v', s₁) hv'
            have h₂ := ihv s₁ t (t', s₂) ht
            have h₃ := runSeq_pres _ ihv ixs s₂ (ixs', s₃) hr
            exact ⟨(h₃.1.trans h₂.1).trans h₁.1, (h₃.2.trans h₂.2).trans h₁.2⟩
    | forE mn ext bd =>
      simp only [TensorInlineExpandMutator.Visit] at h
      cases h₁ : TensorInlineExpandMutator.Visit f c s mn with
      | none => rw [h₁] at h; cases h
      | some o₁ =>
        obtain ⟨mn', s₁⟩ := o₁
        rw [h₁] at h
        simp only at h
        cases h₂ : TensorInlineExpandMutator.Visit f c s₁ ext with
        | none => rw [h₂] at h; cases h
        | some o₂ =>
          obtain ⟨ext', s₂⟩ := o₂
          rw [h₂] at h
          simp only at h
          cases h₃ : TensorInlineExpandMutator.Visit f c s₂ bd with
          | none => rw [h₃] at h; cases h
          | some o₃ =>
            obtain ⟨bd', s₃⟩ := o₃
            rw [h₃] at h
            simp only at h
            cases h
            have a₁ := ihv s mn (mn', s₁) h₁
            have a₂ := ihv s₁ ext (ext', s₂) h₂
            have a₃ := ihv s₂ bd (bd', s₃) h₃
            exact ⟨(a₃.1.trans a₂.1).trans a₁.1, (a₃.2.trans a₂.2).trans a₁.2⟩
    | polyFor mn ext inc bd =>
      simp only [TensorInlineExpandMutator.Visit] at h
      cases h₁ : TensorInlineExpandMutator.Visit f c s bd with
      | none => rw [h₁] at h; cases h
      | some o₁ =>
        obtain ⟨bd', s₁⟩ := o₁
        rw [h₁] at h
        simp only at h
        cases h₂ : TensorInlineExpandMutator.Visit f c s₁ inc with
        | none => rw [h₂] at h; cases h
        | some o₂ =>
          obtain ⟨inc', s₂⟩ := o₂
          rw [h₂] at h
          simp only at h
          cases h
          have a₁ := ihv s bd (bd', s₁) h₁
          have a₂ := ihv s₁ inc (inc', s₂) h₂
          exact ⟨a₂.1.trans a₁.1, a₂.2.trans a₁.2⟩
    | block stmts =>
      simp only [TensorInlineExpandMutator.Visit] at h
      cases hr : runSeq (TensorInlineExpandMutator.Visit f c) s stmts with
      | none => rw [hr] at h; cases h
      | some o₁ =>
        obtain ⟨stmts', s₁⟩ := o₁
        rw [hr] at h
        simp only at h
        cases h
        exact runSeq_pres _ ihv stmts s (stmts', s₁) hr
    | ifThenElse cond tc fc =>
      simp only [TensorInlineExpandMutator.Visit] at h
      cases h₁ : TensorInlineExpandMutator.Visit f c s cond with
      | none => rw [h₁] at h; cases h
      | some o₁ =>
        obtain ⟨cond', s₁⟩ := o₁
        rw [h₁] at h
        simp only at h
        cases h₂ : TensorInlineExpandMutator.Visit f c s₁ tc with
        | none => rw [h₂] at h; cases h
        | some o₂ =>
          obtain ⟨tc', s₂⟩ := o₂
          rw [h₂] at h
          simp only at h
          have a₁ := ihv s cond (cond', s₁) h₁
          have a₂ := ihv s₁ tc (tc', s₂) h₂
          cases fc with
          | none =>
            simp only at h
            cases h
            exact ⟨a₂.1.trans a₁.1, a₂.2.trans a₁.2⟩
          | some fe =>
            simp only at h
            cases h₃ : TensorInlineExpandMutator.Visit f c s₂ fe with
            | none => rw [h₃] at h; cases h
            | some o₃ =>
              obtain ⟨fe', s₃⟩ := o₃
              rw [h₃] at h
              simp only at h
              cases h
              have a₃ := ihv s₂ fe (fe', s₃) h₃
              exact ⟨(a₃.1.trans a₂.1).trans a₁.1,
                (a₃.2.trans a₂.2).trans a₁.2⟩
    | load tslot ixs =>
      simp only [TensorInlineExpandMutator.Visit] at h
      cases htd : tslot.asTensor with
      | none =>
        rw [htd] at h
        simp only at h
        split at h
        · cases h
        · exact loadDefault_pres _ ihv tslot ixs s out h
      | some td =>
        rw [htd] at h
        simp only at h
        by_cases hname : td.name = c.tensor_name
        · rw [if_pos hname] at h
          cases hex : inline_expanded f td.axes td.body ixs with
          | none => rw [hex] at h; cases h
          | some ex =>
            rw [hex] at h
            simp only at h
            cases hr : TensorInlineExpandMutator.Visit f c
                { s with inline_code := true } ex with
            | none => rw [hr] at h; cases h
            | some o₁ =>
              obtain ⟨e', s'⟩ := o₁
              rw [hr] at h
              simp only at h
              cases h
              have a₁ := ihv _ ex (e', s') hr
              exact ⟨a₁.1, a₁.2⟩
        · rw [if_neg hname] at h
          cases hbuf : td.buffer with
          | none =>
            rw [hbuf] at h
            simp only at h
            exact loadDefault_pres _ ihv tslot ixs s out h
          | some eb =>
            rw [hbuf] at h
            simp only at h
            by_cases hic : s.inline_code
            · rw [if_pos hic] at h
              cases hlk : tmapLookup c.all_tensor_map td.name with
              | none => rw [hlk] at h; cases h
              | some trec =>
                rw [hlk] at h
                simp only at h
                cases htrb : trec.buffer with
                | none => rw [htrb] at h; cases h
                | some tb =>
                  rw [htrb] at h
                  simp only at h
                  split at h
                  · -- heap write-cache branch
                    split at h
                    · -- redirect: only the tensor slot is visited
                      cases hts : TensorInlineExpandMutator.Visit f c s tslot with
                      | none => rw [hts] at h; cases h
                      | some o₁ =>
                        obtain ⟨t', s₁⟩ := o₁
                        rw [hts] at h
                        simp only at h
                        cases h
                        exact ihv s tslot (t', s₁) hts
                    · -- zeroing branch: state unchanged
                      split at h
                      · split at h
                        · split at h
                          · cases h; exact ⟨rfl, rfl⟩
                          · cases h
                        · cases h; exact ⟨rfl, rfl⟩
                      · cases h
                  · split at h
                    · -- cache/temp-suffix branch: explicit save/restore
                      split at h
                      · split at h
                        · split at h
                          · split at h
                            · cases h; exact ⟨rfl, rfl⟩
                            · cases h
                          · cases h
                        · cases h
                      · cases h
                    · exact loadDefault_pres _ ihv tslot ixs s out h
            · rw [if_neg hic] at h
              exact loadDefault_pres _ ihv tslot ixs s out h

/-- If the tensor scan of a tree succeeds and no load-handle occurrence it
reports is of an inlined tensor, then no `Load` in the tree references an
inlined tensor. -/
theorem tensorRefs_no_inline (stages : StageMap) :
    ∀ (f : Nat) (e : Expr) (refs : List (Bool × String)),
      tensorRefs f e = some refs →
      (∀ p ∈ refs, p.1 = true → (stages p.2).inlined = false) →
      NoInlineLoadRef stages e := by
  intro f
  induction f with
  | zero => intro e refs h; simp [tensorRefs] at h
  | succ f ih =>
    have hlist : ∀ (l : List Expr) (r : List (Bool × String)),
        collectList (tensorRefs f) l = some r →
        (∀ p ∈ r, p.1 = true → (stages p.2).inlined = false) →
        ∀ x ∈ l, NoInlineLoadRef stages x := by
      intro l
      induction l with
      | nil => intro r h hp x hx; exact absurd hx (List.not_mem_nil x)
      | cons y ys ihl =>
        intro r h hp x hx
        simp only [collectList] at h
        cases hy : tensorRefs f y with
        | none => rw [hy] at h; cases h
        | some ry =>
          rw [hy] at h
          cases hys : collectList (tensorRefs f) ys with
          | none => rw [hys] at h; cases h
          | some rys =>
            rw [hys] at h
            simp only at h
            cases h
            rcases List.mem_cons.mp hx with rfl | hx
            · exact ih x ry hy (fun p hpm => hp p (by simp [hpm]))
            · exact ihl rys hys (fun p hpm => hp p (by simp [hpm])) x hx
    intro e refs h hp
    cases e with
    | intImm n => simp [NoInlineLoadRef]
    | var x => simp [NoInlineLoadRef]
    | tensor nm buf axes body => simp [NoInlineLoadRef]
    | add a b =>
      simp only [tensorRefs] at h
      cases ha : tensorRefs f a with
      | none => rw [ha] at h; cases h
      | some ra =>
        rw [ha] at h
        cases hb : tensorRefs f b with
        | none => rw [hb] at h; cases h
        | some rb =>
          rw [hb] at h
          simp only at h
          cases h
          simp only [NoInlineLoadRef]
          exact ⟨ih a _ ha (fun p hpm => hp p (by simp [hpm])),
                 ih b _ hb (fun p hpm => hp p (by simp [hpm]))⟩
    | mul a b =>
      simp only [tensorRefs] at h
      cases ha : tensorRefs f a with
      | none => rw [ha] at h; cases h
      | some ra =>
        rw [ha] at h
        cases hb : tensorRefs f b with
        | none => rw [hb] at h; cases h
        | some rb =>
          rw [hb] at h
          simp only at h
          cases h
          simp only [NoInlineLoadRef]
          exact ⟨ih a _ ha (fun p hpm => hp p (by simp [hpm])),
                 ih b _ hb (fun p hpm => hp p (by simp [hpm]))⟩
    | store t v ixs =>
      simp only [tensorRefs] at h
      cases ht : tensorRefs f t with
      | none => rw [ht] at h; cases h
      | some rt =>
        rw [ht] at h
        cases hv : tensorRefs f v with
        | none => rw [hv] at h; cases h
        | some rv =>
          rw [hv] at h
          cases hixs : collectList (tensorRefs f) ixs with
          | none => rw [hixs] at h; cases h
          | some rixs =>
            rw [hixs] at h
            simp only at h
            cases h
            simp only [NoInlineLoadRef]
            exact ⟨ih t _ ht (fun p hpm => hp p (by simp [hpm])),
                   ih v _ hv (fun p hpm => hp p (by simp [hpm])),
                   hlist ixs _ hixs (fun p hpm => hp p (by simp [hpm]))⟩
    | forE mn ext bd =>
      simp only [tensorRefs] at h
      cases h₁ : tensorRefs f mn with
      | none => rw [h₁] at h; cases h
      | some r₁ =>
        rw [h₁] at h
        cases h₂ : tensorRefs f ext with
        | none => rw [h₂] at h; cases h
        | some r₂ =>
          rw [h₂] at h
          cases h₃ : tensorRefs f bd with
          | none => rw [h₃] at h; cases h
          | some r₃ =>
            rw [h₃] at h
            simp only at h
            cases h
            simp only [NoInlineLoadRef]
            exact ⟨ih mn _ h₁ (fun p hpm => hp p (by simp [hpm])),
                   ih ext _ h₂ (fun p hpm => hp p (by simp [hpm])),
                   ih bd _ h₃ (fun p hpm => hp p (by simp [hpm]))⟩
    | polyFor mn ext inc bd =>
      simp only [tensorRefs] at h
      cases h₁ : tensorRefs f mn with
      | none => rw [h₁] at h; cases h
      | some r₁ =>
        rw [h₁] at h
        cases h₂ : tensorRefs f ext with
        | none => rw [h₂] at h; cases h
        | some r₂ =>
          rw [h₂] at h
          cases h₃ : tensorRefs f inc with
          | none => rw [h₃] at h; cases h
          | some r₃ =>
            rw [h₃] at h
            cases h₄ : tensorRefs f bd with
            | none => rw [h₄] at h; cases h
            | some r₄ =>
              rw [h₄] at h
              simp only at h
              cases h
              simp only [NoInlineLoadRef]
              exact ⟨ih mn _ h₁ (fun p hpm => hp p (by simp [hpm])),
                     ih ext _ h₂ (fun p hpm => hp p (by simp [hpm])),
                     ih inc _ h₃ (fun p hpm => hp p (by simp [hpm])),
                     ih bd _ h₄ (fun p hpm => hp p (by simp [hpm]))⟩
    | block stmts =>
      simp only [tensorRefs] at h
      cases hs : collectList (tensorRefs f) stmts with
      | none => rw [hs] at h; cases h
      | some rs =>
        rw [hs] at h
        simp only at h
        cases h
        simp only [NoInlineLoadRef]
        exact fun st hst => hlist stmts _ hs hp st hst
    | ifThenElse cond tc fc =>
      simp only [tensorRefs] at h
      cases h₁ : tensorRefs f cond with
      | none => rw [h₁] at h; cases h
      | some r₁ =>
        rw [h₁] at h
        cases h₂ : tensorRefs f tc with
        | none => rw [h₂] at h; cases h
        | some r₂ =>
          rw [h₂] at h
          cases fc with
          | none =>
            simp only at h
            cases h
            simp only [NoInlineLoadRef]
            refine ⟨ih cond _ h₁ (fun p hpm => hp p (by simp [hpm])),
                    ih tc _ h₂ (fun p hpm => hp p (by simp [hpm])), ?_⟩
            intro fe hfe
            cases hfe
          | some fe =>
            simp only at h
            cases h₃ : tensorRefs f fe with
            | none => rw [h₃] at h; cases h
            | some r₃ =>
              rw [h₃] at h
              simp only at h
              cases h
              simp only [NoInlineLoadRef]
              refine ⟨ih cond _ h₁ (fun p hpm => hp p (by simp [hpm])),
                      ih tc _ h₂ (fun p hpm => hp p (by simp [hpm])), ?_⟩
              intro fe' hfe'
              cases hfe'
              exact ih fe _ h₃ (fun p hpm => hp p (by simp [hpm]))
    | load tslot ixs =>
      simp only [tensorRefs] at h
      cases htt : tslot.asTensor with
      | some td =>
        rw [htt] at h
        simp only at h
        cases hixs : collectList (tensorRefs f) ixs with
        | none => rw [hixs] at h; cases h
        | some rixs =>
          rw [hixs] at h
          simp only at h
          cases h
          simp only [NoInlineLoadRef]
          refine ⟨?_, ?_, ?_⟩
          · intro td' htd'
            rw [htt] at htd'
            cases htd'
            exact hp (true, td.name) (by simp) rfl
          · intro hnone
            rw [htt] at hnone
            cases hnone
          · exact hlist ixs _ hixs (fun p hpm => hp p (by simp [hpm]))
      | none =>
        rw [htt] at h
        simp only at h
        cases ht : tensorRefs f tslot with
        | none => rw [ht] at h; cases h
        | some rt =>
          rw [ht] at h
          cases hixs : collectList (tensorRefs f) ixs with
          | none => rw [hixs] at h; cases h
          | some rixs =>
            rw [hixs] at h
            simp only at h
            cases h
            simp only [NoInlineLoadRef]
            refine ⟨?_, ?_, ?_⟩
            · intro td' htd'
              rw [htt] at htd'
              cases htd'
            · intro _
              exact ih tslot _ ht (fun p hpm => hp p (by simp [hpm]))
            · exact hlist ixs _ hixs (fun p hpm => hp p (by simp [hpm]))

/-- When the re-scan loop returns, either it never ran (empty initial
worklist) or the final re-scan of the result came back empty. -/
theorem inlineLoop_some (vf : Nat) (tmap : TMap) (stages : StageMap) :
    ∀ (lf : Nat) (S : List String) (e r : Expr),
      inlineLoop vf tmap stages lf S e = some r →
      (S = [] ∧ r = e) ∨ CollectLoadTensors vf stages r = some [] := by
  intro lf
  induction lf with
  | zero =>
    intro S e r h
    cases S with
    | nil =>
      simp only [inlineLoop] at h
      cases h
      exact Or.inl ⟨rfl, rfl⟩
    | cons t ts => simp [inlineLoop] at h
  | succ lf ih =>
    intro S e r h
    cases S with
    | nil =>
      simp only [inlineLoop] at h
      cases h
      exact Or.inl ⟨rfl, rfl⟩
    | cons t ts =>
      simp only [inlineLoop] at h
      cases hex : expandRound vf tmap stages (t :: ts) e with
      | none => rw [hex] at h; cases h
      | some e' =>
        rw [hex] at h
        simp only at h
        cases hcl : CollectLoadTensors vf stages e' with
        | none => rw [hcl] at h; cases h
        | some names =>
          rw [hcl] at h
          simp only at h
          rcases ih names e' r h with ⟨hnil, rfl⟩ | hr
          · exact Or.inr (hnil ▸ hcl)
          · exact Or.inr hr

/-- An empty load re-scan certifies the absence of inlined load
references. -/
theorem collectLoad_nil_no_inline (f : Nat) (stages : StageMap) (e : Expr)
    (h : CollectLoadTensors f stages e = some []) : NoInlineLoadRef stages e := by
  simp only [CollectLoadTensors] at h
  cases href : tensorRefs f e with
  | none => rw [href] at h; cases h
  | some refs =>
    rw [href] at h
    simp only at h
    injection h with hdedup
    rw [List.dedup_eq_nil] at hdedup
    rw [List.filter_eq_nil_iff] at hdedup
    refine tensorRefs_no_inline stages f e refs href ?_
    intro p hp hp1
    by_contra hbad
    refine hdedup p.2 ?_ (by simpa using hbad)
    exact List.mem_map_of_mem Prod.snd (List.mem_filter.mpr ⟨hp, by simp [hp1]⟩)

/-- An empty initial tensor scan certifies the absence of inlined load
references. -/
theorem collectInline_nil_no_inline (f : Nat) (stages : StageMap) (e : Expr)
    (h : CollectInlineTensors f stages e = some []) :
    NoInlineLoadRef stages e := by
  simp only [CollectInlineTensors] at h
  cases href : tensorRefs f e with
  | none => rw [href] at h; cases h
  | some refs =>
    rw [href] at h
    simp only at h
    injection h with hdedup
    rw [List.dedup_eq_nil] at hdedup
    rw [List.filter_eq_nil_iff] at hdedup
    refine tensorRefs_no_inline stages f e refs href ?_
    intro p hp _
    by_contra hbad
    exact hdedup p.2 (List.mem_map_of_mem Prod.snd hp) (by simpa using hbad)

/-! ### Claim theorems -/

/-- Claim C1: whenever `ComputeInlineExpand` returns, no `Load` node
anywhere in the resulting tree references a tensor whose stage metadata
marks it inlined.  This holds for every input on which the pass returns —
the acyclicity premise of the claim is not even needed, because the loop
only exits after a re-scan of the tree finds no still-referenced inlined
tensor. -/
theorem C1_compute_inline_expand_complete (lf vf : Nat) (tmap : TMap)
    (stages : StageMap) (e r : Expr)
    (h : ComputeInlineExpand lf vf tmap stages e = some r) :
    NoInlineLoadRef stages r := by
  simp only [ComputeInlineExpand] at h
  cases hc : CollectInlineTensors vf stages e with
  | none => rw [hc] at h; cases h
  | some names =>
    rw [hc] at h
    simp only at h
    rcases inlineLoop_some vf tmap stages lf names e r h with ⟨rfl, rfl⟩ | hr
    · exact collectInline_nil_no_inline vf stages r hc
    · exact collectLoad_nil_no_inline vf stages r hr

/-- Witness for C1: a tree with one non-inlined load runs through the pass
unchanged, and the conclusion holds on the result. -/
theorem C1_witness : NoInlineLoadRef stagesNone (.load tA [.var "i"]) :=
  C1_compute_inline_expand_complete 1 3 [] stagesNone
    (.load tA [.var "i"]) (.load tA [.var "i"]) rfl

/-- Claim C9: on a tree in which no referenced tensor is flagged inlined,
`ComputeInlineExpand` is the identity — the initial scan comes back empty
and the re-scan loop never runs. -/
theorem C9_idempotent_on_expanded (lf vf : Nat) (tmap : TMap)
    (stages : StageMap) (e : Expr) (refs : List (Bool × String))
    (href : tensorRefs vf e = some refs)
    (hni : ∀ p ∈ refs, (stages p.2).inlined = false) :
    ComputeInlineExpand lf vf tmap stages e = some e := by
  have hfilter : (refs.map Prod.snd).filter (fun n => (stages n).inlined) = [] := by
    rw [List.filter_eq_nil_iff]
    intro n hn
    rcases List.mem_map.mp hn with ⟨p, hp, rfl⟩
    simp [hni p hp]
  simp only [ComputeInlineExpand, CollectInlineTensors, href, hfilter]
  cases lf <;> rfl

/-- Witness for C9: the pass leaves a tree with a single non-inlined load
untouched. -/
theorem C9_witness :
    ComputeInlineExpand 4 3 [] stagesNone (.load tA [.var "i"]) =
      some (.load tA [.var "i"]) :=
  C9_idempotent_on_expanded 4 3 [] stagesNone (.load tA [.var "i"])
    [(true, "A")] rfl (by intro p hp; simp at hp; simp [hp, stagesNone])

/-- With enough fuel, one mutator sweep for `T` leaves `eC3` exactly as it
was: the `Load` of `T` sits in the `min` slot of a `PolyFor`, which the
`IRMutator` default for `PolyFor` never visits (it visits only body and
inc). -/
theorem visit_eC3_ok (v : Nat) :
    TensorInlineExpandMutator.Visit (v + 2) ⟨"T", tmapC3, stagesC3⟩ flags0 eC3 =
      some (eC3, flags0) := by
  simp [TensorInlineExpandMutator.Visit, eC3]

theorem visit_eC3_all (vf : Nat) :
    TensorInlineExpandMutator.Visit vf ⟨"T", tmapC3, stagesC3⟩ flags0 eC3 = none ∨
    TensorInlineExpandMutator.Visit vf ⟨"T", tmapC3, stagesC3⟩ flags0 eC3 =
      some (eC3, flags0) := by
  match vf with
  | 0 => exact Or.inl rfl
  | 1 => exact Or.inl rfl
  | v + 2 => exact Or.inr (visit_eC3_ok v)

theorem collectLoad_eC3_all (vf : Nat) :
    CollectLoadTensors vf stagesC3 eC3 = none ∨
    CollectLoadTensors vf stagesC3 eC3 = some ["T"] := by
  match vf with
  | 0 => exact Or.inl rfl
  | 1 => exact Or.inl rfl
  | 2 => exact Or.inl rfl
  | v + 3 => right; simp [CollectLoadTensors, tensorRefs, eC3, tT3,
      collectList, Expr.asTensor, stagesC3]

theorem collectInline_eC3_all (vf : Nat) :
    CollectInlineTensors vf stagesC3 eC3 = none ∨
    CollectInlineTensors vf stagesC3 eC3 = some ["T"] := by
  match vf with
  | 0 => exact Or.inl rfl
  | 1 => exact Or.inl rfl
  | 2 => exact Or.inl rfl
  | v + 3 => right; simp [CollectInlineTensors, tensorRefs, eC3, tT3,
      collectList, Expr.asTensor, stagesC3]

/-- Claim C3 (code bug): `ComputeInlineExpand` does not terminate on `eC3`,
although the inline-dependency relation among inline-flagged tensors is
trivially acyclic there (the only inlined tensor `T` has the constant
expansion `1`, so the relation has no edge at all).  The load of `T` sits
in the `min` slot of a `PolyFor`; the scan re-collects it on every
iteration, but the mutator's `PolyFor` default visits only body and inc,
so the load is never rewritten and the loop state repeats forever — for
every iteration bound and every visitor fuel the embedded pass yields
`none`. -/
theorem C3_nontermination (lf vf : Nat) :
    ComputeInlineExpand lf vf tmapC3 stagesC3 eC3 = none := by
  have hloop : ∀ lf' vf', inlineLoop vf' tmapC3 stagesC3 lf' ["T"] eC3 = none := by
    intro lf'
    induction lf' with
    | zero => intro vf'; rfl
    | succ lf' ih =>
      intro vf'
      simp only [inlineLoop]
      rcases visit_eC3_all vf' with hv | hv
      · simp [expandRound, hv]
      · simp only [expandRound, hv]
        rcases collectLoad_eC3_all vf' with hc | hc
        · simp [hc]
        · simp [hc, ih vf']
  simp only [ComputeInlineExpand]
  rcases collectInline_eC3_all vf with hc | hc
  · simp [hc]
  · simp [hc, hloop lf vf]

/-- Claim C10: any fully processed visit of the inline-expansion mutator —
in particular the visit that processes a `Load` of a cache/temp-suffixed
buffer — returns with `temp_buffer` and `memory_local` equal to their
values on entry, so the zero-substitution of block/thread axis variables
is confined to that load's tensor and index subtrees and does not leak
into siblings visited afterwards. -/
theorem C10_flags_restored (f : Nat) (c : Ctx) (e : Expr) (s : MutFlags)
    (out : Expr × MutFlags)
    (h : TensorInlineExpandMutator.Visit f c s e = some out) :
    out.2.temp_buffer = s.temp_buffer ∧ out.2.memory_local = s.memory_local :=
  Visit_pres f c e s out h

/-- Witness for C10: the nested temp-buffer run of the scratch-erasure
example sets `temp_buffer`/`memory_local` internally, yet hands back the
initial state. -/
theorem C10_witness :
    (Expr.load tP [Expr.load tQ [Expr.intImm 0]],
        flags0).2.temp_buffer = flags0.temp_buffer ∧
    (Expr.load tP [Expr.load tQ [Expr.intImm 0]],
        flags0).2.memory_local = flags0.memory_local :=
  C10_flags_restored 10 ⟨"T", tmapC7, stagesNone⟩ (.load tT7 []) flags0
    (.load tP [.load tQ [.intImm 0]], flags0) rfl

/-- Claim C2: when the mutator rewrites a `Load` of the tensor being
inlined, the result is exactly the tensor's inline-expansion body with
each formal index variable positionally replaced by the load's
corresponding actual index expression (`inline_expanded` zips formals with
actuals).  The hypothesis `Quiet` states that the substituted expansion
contains none of the special shapes (target loads, cache-suffixed
buffers, device-axis variable names) that the subsequent recursive sweep
of the substituted region would rewrite further. -/
theorem C2_load_substitution (f : Nat) (c : Ctx) (s : MutFlags)
    (buf : Option BufferData) (axes : List String) (body : Expr)
    (ixs : List Expr) (ex : Expr)
    (hsub : inline_expanded f axes (some body) ixs = some ex)
    (hq : Quiet f c ex = true) :
    TensorInlineExpandMutator.Visit (f + 1) c s
      (.load (.tensor c.tensor_name buf axes (some body)) ixs) =
      some (ex, { s with inline_code := false }) := by
  simp [TensorInlineExpandMutator.Visit, Expr.asTensor, hsub,
    Visit_quiet_id f c ex _ hq]

/-- Witness for C2: the spec's example — `T` with expansion
`E(i,j) = A[i,j] + B[j]` and the load `T[x+1, y]` — rewrites to
syntactically `A[x+1, y] + B[y]`. -/
theorem C2_witness :
    TensorInlineExpandMutator.Visit 10 ctxC2 flags0
      (.load tT [.add (.var "x") (.intImm 1), .var "y"]) =
    some (.add (.load tA [.add (.var "x") (.intImm 1), .var "y"])
               (.load tB [.var "y"]), flags0) := by
  have h := C2_load_substitution 9 ctxC2 flags0 none ["i", "j"] bodyT
    [.add (.var "x") (.intImm 1), .var "y"]
    (.add (.load tA [.add (.var "x") (.intImm 1), .var "y"])
          (.load tB [.var "y"])) rfl rfl
  simpa [ctxC2, tT, bodyT, flags0] using h

/-- Counterexample to claim C4: under a derived visitor that rewrites the
variable `x` to `0`, the default `IRMutator` traversal leaves the `min`
and `extent` slots of a `PolyFor` and the tensor-handle slot of a `Load`
untouched — had those slots been recursed into, as the claim states, the
variables in them would have been rewritten to `0` as well; the final
conjunct shows the untouched and rewritten forms are distinct, so not
every reachable `Expr` is visited. -/
theorem C4_counterexample :
    IRMutator.Visit onVarX 5 eC4 =
      some (.polyFor (.var "x") (.var "x") (.intImm 0) (.intImm 0)) ∧
    IRMutator.Visit onVarX 5 eC4load = some (.load (.var "x") [.intImm 0]) ∧
    (Expr.var "x") ≠ (Expr.intImm 0) := by
  refine ⟨rfl, rfl, by simp⟩

/-- Claim C4 as amended: the default mutator traversal recurses into a
fixed kind-specific set of owned children — for `For` into min, extent and
body, but for `PolyFor` only into its body and increment (min and extent
are skipped) and for `Load` only into its index expressions (the tensor
handle is skipped); consequently not every reachable `Expr` is visited. -/
theorem C4_amended (onv : String → Option Expr) (f : Nat)
    (mn ext inc bd mn' ext' inc' bd' t : Expr) (ixs ixs' : List Expr)
    (hmn : IRMutator.Visit onv f mn = some mn')
    (hext : IRMutator.Visit onv f ext = some ext')
    (hinc : IRMutator.Visit onv f inc = some inc')
    (hbd : IRMutator.Visit onv f bd = some bd')
    (hixs : mapOpt (IRMutator.Visit onv f) ixs = some ixs') :
    IRMutator.Visit onv (f + 1) (.polyFor mn ext inc bd) =
      some (.polyFor mn ext inc' bd') ∧
    IRMutator.Visit onv (f + 1) (.forE mn ext bd) =
      some (.forE mn' ext' bd') ∧
    IRMutator.Visit onv (f + 1) (.load t ixs) = some (.load t ixs') := by
  refine ⟨?_, ?_, ?_⟩ <;> simp [IRMutator.Visit, hmn, hext, hinc, hbd, hixs]

/-- Witness for C4 (amended): instantiated on the observed-variable
fixtures. -/
theorem C4_witness :
    IRMutator.Visit onVarX 6 eC4 =
      some (.polyFor (.var "x") (.var "x") (.intImm 0) (.intImm 0)) ∧
    IRMutator.Visit onVarX 6 (.forE (.var "x") (.var "x") (.var "x")) =
      some (.forE (.intImm 0) (.intImm 0) (.intImm 0)) ∧
    IRMutator.Visit onVarX 6 eC4load = some (.load (.var "x") [.intImm 0]) :=
  C4_amended onVarX 5 (.var "x") (.var "x") (.var "x") (.var "x")
    (.intImm 0) (.intImm 0) (.intImm 0) (.intImm 0) (.var "x")
    [.var "x"] [.intImm 0] rfl rfl rfl rfl rfl

theorem lookup_append (k : String) (σ₁ σ₂ : List (String × Expr)) :
    List.lookup k (σ₁ ++ σ₂) =
      match List.lookup k σ₁ with
      | some v => some v
      | none => List.lookup k σ₂ := by
  induction σ₁ with
  | nil => simp [List.lookup]
  | cons p σ₁ ih =>
    obtain ⟨a, b⟩ := p
    simp only [List.cons_append, List.lookup]
    cases h : k == a <;> simp [ih]

theorem lookup_zero_vals : ∀ (σ : List (String × Expr)) (k : String)
    (r : Expr), (∀ p ∈ σ, p.2 = Expr.intImm 0) →
    List.lookup k σ = some r → r = Expr.intImm 0 := by
  intro σ
  induction σ with
  | nil => intro k r _ h; simp [List.lookup] at h
  | cons p σ ih =>
    intro k r hz h
    obtain ⟨a, b⟩ := p
    simp only [List.lookup] at h
    cases hk : k == a with
    | true =>
      rw [hk] at h
      injection h with h
      exact h ▸ hz (a, b) (by simp)
    | false =>
      rw [hk] at h
      exact ih k r (fun p hp => hz p (by simp [hp])) h

theorem lookup_all_zero : ∀ (σ : List (String × Expr)) (k : String),
    (∀ p ∈ σ, p.2 = Expr.intImm 0) → k ∈ σ.map Prod.fst →
    List.lookup k σ = some (Expr.intImm 0) := by
  intro σ
  induction σ with
  | nil => intro k _ hk; simp at hk
  | cons p σ ih =>
    intro k hz hk
    obtain ⟨a, b⟩ := p
    simp only [List.lookup]
    by_cases hka : k = a
    · have hb : b = Expr.intImm 0 := hz (a, b) (by simp)
      simp [hka, hb]
    · have : k ∈ σ.map Prod.fst := by
        simpa [hka] using hk
      simp only [show (k == a) = false from beq_eq_false_iff_ne.mpr hka]
      exact ih k (fun p hp => hz p (by simp [hp])) this

theorem lookup_not_mem : ∀ (σ : List (String × Expr)) (k : String),
    k ∉ σ.map Prod.fst → List.lookup k σ = none := by
  intro σ
  induction σ with
  | nil => intro k _; rfl
  | cons p σ ih =>
    intro k hk
    obtain ⟨a, b⟩ := p
    simp only [List.map_cons, List.mem_cons, not_or] at hk
    simp only [List.lookup,
      show (k == a) = false from beq_eq_false_iff_ne.mpr hk.1]
    exact ih k hk.2

/-- Substituting a zero-valued environment and then replacing one more
variable by zero is the same as substituting the extended environment in
one go: the sequential per-axis zeroing loop of the source computes a
simultaneous substitution. -/
theorem replace_after_zero_subst :
    ∀ (f : Nat) (σ : List (String × Expr)),
      (∀ p ∈ σ, p.2 = Expr.intImm 0) →
      ∀ (e e₁ : Expr) (a : String), substVars f σ e = some e₁ →
        ReplaceVarWithExpr f e₁ a (.intImm 0) =
          substVars f (σ ++ [(a, Expr.intImm 0)]) e := by
  intro f
  induction f with
  | zero => intro σ _ e e₁ a h; simp [substVars] at h
  | succ f ih =>
    intro σ hz e e₁ a h
    have ihl : ∀ (l l₁ : List Expr), mapOpt (substVars f σ) l = some l₁ →
        mapOpt (substVars f [(a, Expr.intImm 0)]) l₁ =
          mapOpt (substVars f (σ ++ [(a, Expr.intImm 0)])) l := by
      intro l
      induction l with
      | nil =>
        intro l₁ h
        simp only [mapOpt] at h
        cases h
        rfl
      | cons x xs ihxs =>
        intro l₁ h
        simp only [mapOpt] at h
        cases hx : substVars f σ x with
        | none => rw [hx] at h; cases h
        | some y =>
          rw [hx] at h
          cases hxs : mapOpt (substVars f σ) xs with
          | none => rw [hxs] at h; cases h
          | some ys =>
            rw [hxs] at h
            simp only at h
            cases h
            have h₁ := ih σ hz x y a hx
            simp only [ReplaceVarWithExpr] at h₁
            simp only [mapOpt, h₁, ihxs ys hxs]
    cases e with
    | intImm n =>
      simp only [substVars] at h
      cases h
      rfl
    | var x =>
      simp only [substVars] at h
      cases hlk : List.lookup x σ with
      | some r =>
        rw [hlk] at h
        have hr0 : r = Expr.intImm 0 := lookup_zero_vals σ x r hz hlk
        injection h with h
        subst h
        subst hr0
        simp [ReplaceVarWithExpr, substVars, lookup_append, hlk]
      | none =>
        rw [hlk] at h
        injection h with h
        subst h
        simp [ReplaceVarWithExpr, substVars, lookup_append, hlk]
    | tensor nm buf axes body =>
      simp only [substVars] at h
      cases h
      rfl
    | add a' b' =>
      simp only [substVars] at h
      cases ha : substVars f σ a' with
      | none => rw [ha] at h; cases h
      | some a₁ =>
        rw [ha] at h
        cases hb : substVars f σ b' with
        | none => rw [hb] at h; cases h
        | some b₁ =>
          rw [hb] at h
          simp only at h
          cases h
          have h₁ := ih σ hz a' a₁ a ha
          have h₂ := ih σ hz b' b₁ a hb
          simp only [ReplaceVarWithExpr] at h₁ h₂
          simp only [ReplaceVarWithExpr, substVars, h₁, h₂]
    | mul a' b' =>
      simp only [substVars] at h
      cases ha : substVars f σ a' with
      | none => rw [ha] at h; cases h
      | some a₁ =>
        rw [ha] at h
        cases hb : substVars f σ b' with
        | none => rw [hb] at h; cases h
        | some b₁ =>
          rw [hb] at h
          simp only at h
          cases h
          have h₁ := ih σ hz a' a₁ a ha
          have h₂ := ih σ hz b' b₁ a hb
          simp only [ReplaceVarWithExpr] at h₁ h₂
          simp only [ReplaceVarWithExpr, substVars, h₁, h₂]
    | load t ixs =>
      simp only [substVars] at h
      cases ht : substVars f σ t with
      | none => rw [ht] at h; cases h
      | some t₁ =>
        rw [ht] at h
        cases hixs : mapOpt (substVars f σ) ixs with
        | none => rw [hixs] at h; cases h
        | some ixs₁ =>
          rw [hixs] at h
          simp only at h
          cases h
          have h₁ := ih σ hz t t₁ a ht
          simp only [ReplaceVarWithExpr] at h₁
          simp only [ReplaceVarWithExpr, substVars, h₁, ihl ixs ixs₁ hixs]
    | store t v ixs =>
      simp only [substVars] at h
      cases ht : substVars f σ t with
      | none => rw [ht] at h; cases h
      | some t₁ =>
        rw [ht] at h
        cases hv : substVars f σ v with
        | none => rw [hv] at h; cases h
        | some v₁ =>
          rw [hv] at h
          cases hixs : mapOpt (substVars f σ) ixs with
          | none => rw [hixs] at h; cases h
          | some ixs₁ =>
            rw [hixs] at h
            simp only at h
            cases h
            have h₁ := ih σ hz t t₁ a ht
            have h₂ := ih σ hz v v₁ a hv
            simp only [ReplaceVarWithExpr] at h₁ h₂
            simp only [ReplaceVarWithExpr, substVars, h₁, h₂,
              ihl ixs ixs₁ hixs]
    | forE mn ext bd =>
      simp only [substVars] at h
      cases h₁ : substVars f σ mn with
      | none => rw [h₁] at h; cases h
      | some mn₁ =>
        rw [h₁] at h
        cases h₂ : substVars f σ ext with
        | none => rw [h₂] at h; cases h
        | some ext₁ =>
          rw [h₂] at h
          cases h₃ : substVars f σ bd with
          | none => rw [h₃] at h; cases h
          | some bd₁ =>
            rw [h₃] at h
            simp only at h
            cases h
            have e₁ := ih σ hz mn mn₁ a h₁
            have e₂ := ih σ hz ext ext₁ a h₂
            have e₃ := ih σ hz bd bd₁ a h₃
            simp only [ReplaceVarWithExpr] at e₁ e₂ e₃
            simp only [ReplaceVarWithExpr, substVars, e₁, e₂, e₃]
    | polyFor mn ext inc bd =>
      simp only [substVars] at h
      cases h₁ : substVars f σ mn with
      | none => rw [h₁] at h; cases h
      | some mn₁ =>
        rw [h₁] at h
        cases h₂ : substVars f σ ext with
        | none => rw [h₂] at h; cases h
        | some ext₁ =>
          rw [h₂] at h
          cases h₃ : substVars f σ inc with
          | none => rw [h₃] at h; cases h
          | some inc₁ =>
            rw [h₃] at h
            cases h₄ : substVars f σ bd with
            | none => rw [h₄] at h; cases h
            | some bd₁ =>
              rw [h₄] at h
              simp only at h
              cases h
              have e₁ := ih σ hz mn mn₁ a h₁
              have e₂ := ih σ hz ext ext₁ a h₂
              have e₃ := ih σ hz inc inc₁ a h₃
              have e₄ := ih σ hz bd bd₁ a h₄
              simp only [ReplaceVarWithExpr] at e₁ e₂ e₃ e₄
              simp only [ReplaceVarWithExpr, substVars, e₁, e₂, e₃, e₄]
    | block stmts =>
      simp only [substVars] at h
      cases hs : mapOpt (substVars f σ) stmts with
      | none => rw [hs] at h; cases h
      | some stmts₁ =>
        rw [hs] at h
        simp only at h
        cases h
        simp only [ReplaceVarWithExpr, substVars, ihl stmts stmts₁ hs]
    | ifThenElse cond tc fc =>
      simp only [substVars] at h
      cases h₁ : substVars f σ cond with
      | none => rw [h₁] at h; cases h
      | some cond₁ =>
        rw [h₁] at h
        cases h₂ : substVars f σ tc with
        | none => rw [h₂] at h; cases h
        | some tc₁ =>
          rw [h₂] at h
          cases h₃ : mapOptE (substVars f σ) fc with
          | none => rw [h₃] at h; cases h
          | some fc₁ =>
            rw [h₃] at h
            simp only at h
            cases h
            have e₁ := ih σ hz cond cond₁ a h₁
            have e₂ := ih σ hz tc tc₁ a h₂
            simp only [ReplaceVarWithExpr] at e₁ e₂
            have e₃ : mapOptE (substVars f [(a, Expr.intImm 0)]) fc₁ =
                mapOptE (substVars f (σ ++ [(a, Expr.intImm 0)])) fc := by
              cases fc with
              | none =>
                simp only [mapOptE] at h₃
                cases h₃
                rfl
              | some fe =>
                simp only [mapOptE] at h₃
                cases hfe : substVars f σ fe with
                | none => rw [hfe] at h₃; cases h₃
                | some fe₁ =>
                  rw [hfe] at h₃
                  simp only at h₃
                  cases h₃
                  have e := ih σ hz fe fe₁ a hfe
                  simp only [ReplaceVarWithExpr] at e
                  simp only [mapOptE, e]
            simp only [ReplaceVarWithExpr, substVars, e₁, e₂, e₃]

theorem zeroSigma_succ (names : List String) (lvl : Nat) :
    zeroSigma names (lvl + 1) =
      zeroSigma names lvl ++ [(names.getD (lvl + 1) "", Expr.intImm 0)] := by
  simp [zeroSigma, List.range_succ]

theorem zeroSigma_zero_vals (names : List String) (lvl : Nat) :
    ∀ p ∈ zeroSigma names lvl, p.2 = Expr.intImm 0 := by
  intro p hp
  simp only [zeroSigma, List.mem_map] at hp
  obtain ⟨j, _, rfl⟩ := hp
  rfl

/-- The sequential compute-at zeroing loop equals the simultaneous
substitution that maps the axis variables of levels `0 .. level` to the
constant zero. -/
theorem zeroAxes_eq_subst (f : Nat) (names : List String) :
    ∀ (lvl : Nat) (ix r : Expr), zeroAxes f names lvl ix = some r →
      substVars f (zeroSigma names lvl) ix = some r := by
  intro lvl
  induction lvl with
  | zero =>
    intro ix r h
    simp only [zeroAxes, show List.range 1 = [0] from rfl, List.foldlM_cons,
      List.foldlM_nil] at h
    cases hrep : ReplaceVarWithExpr f ix (names.getD 0 "") (.intImm 0) with
    | none => rw [hrep] at h; cases h
    | some m =>
      rw [hrep] at h
      have h' : m = r := by simpa using h
      subst h'
      simpa [zeroSigma, show List.range 1 = [0] from rfl,
        ReplaceVarWithExpr] using hrep
  | succ lvl ih =>
    intro ix r h
    simp only [zeroAxes] at h
    rw [List.range_succ, List.foldlM_append] at h
    simp only [List.foldlM_cons, List.foldlM_nil] at h
    cases hmid : (List.range (lvl + 1)).foldlM
        (fun acc j =>
          ReplaceVarWithExpr f acc (names.getD j "") (.intImm 0)) ix with
    | none => rw [hmid] at h; simp at h
    | some m =>
      rw [hmid] at h
      simp only [Option.bind_eq_bind, Option.some_bind] at h
      cases hrep : ReplaceVarWithExpr f m (names.getD (lvl + 1) "")
          (.intImm 0) with
      | none => rw [hrep] at h; simp at h
      | some r' =>
        rw [hrep] at h
        simp only [Option.some_bind] at h
        cases h
        have h₁ : substVars f (zeroSigma names lvl) ix = some m :=
          ih ix m (by simpa [zeroAxes] using hmid)
        rw [zeroSigma_succ]
        rw [← replace_after_zero_subst f (zeroSigma names lvl)
          (zeroSigma_zero_vals names lvl) ix m (names.getD (lvl + 1) "") h₁]
        exact hrep

theorem subst_zeroSigma_hit (g : Nat) (names : List String) (lvl j : Nat)
    (hj : j < lvl + 1) :
    substVars (g + 1) (zeroSigma names lvl) (.var (names.getD j "")) =
      some (.intImm 0) := by
  have hmem : names.getD j "" ∈ (zeroSigma names lvl).map Prod.fst := by
    simp only [zeroSigma, List.map_map, List.mem_map, Function.comp,
      List.mem_range]
    exact ⟨j, hj, rfl⟩
  have hlk := lookup_all_zero _ _ (zeroSigma_zero_vals names lvl) hmem
  simp only [substVars, hlk]

theorem subst_zeroSigma_miss (g : Nat) (names : List String) (lvl : Nat)
    (v : String) (hv : v ∉ (zeroSigma names lvl).map Prod.fst) :
    substVars (g + 1) (zeroSigma names lvl) (.var v) = some (.var v) := by
  simp [substVars, lookup_not_mem _ _ hv]

theorem zeroSigma_fst (names : List String) (lvl : Nat)
    (h : lvl + 1 ≤ names.length) :
    (zeroSigma names lvl).map Prod.fst = names.take (lvl + 1) := by
  apply List.ext_getElem
  · simp [zeroSigma]
    omega
  · intro i h1 h2
    have hi : i < lvl + 1 := by
      simp [zeroSigma] at h1
      omega
    have hilen : i < names.length := by omega
    simp [zeroSigma, List.getD_eq_getElem names "" hilen,
      List.getElem?_eq_getElem hilen]

/-- The counterpart-absent heap write-cache branch of `Visit(Load)`
(`compute_inline_expand.cc` lines 82–104): when the load's buffer carries
the write-cache suffix, resolves to heap scope, and the buffer-derived
stripped name is *not* in the map, the indices are zeroed for the
compute-at levels and nothing else happens — no redirect, no recursive
visiting, state unchanged. -/
theorem visit_zeroing_no_alias (f : Nat) (c : Ctx) (s : MutFlags)
    (nm : String) (eb tb : BufferData) (trec : TensorData)
    (axes : List String) (tbody : Option Expr) (ixs ixs' : List Expr)
    (par : String) (lvl : Nat)
    (hic : s.inline_code = true)
    (hnm : nm ≠ c.tensor_name)
    (hlk : tmapLookup c.all_tensor_map nm = some trec)
    (htb : trec.buffer = some tb)
    (hwc : strEndsWith eb.name "_write_cache" = true)
    (hheap : tb.memory_type = MemoryType.heap)
    (habsent : (tmapLookup c.all_tensor_map
        (strDropRight (strDrop eb.name 1) 12)).isSome = false)
    (hca : (c.stages nm).compute_ats = [(par, lvl)])
    (hzero : mapOpt (zeroAxes f (c.stages nm).axis_names lvl) ixs =
      some ixs') :
    TensorInlineExpandMutator.Visit (f + 1) c s
        (.load (.tensor nm (some eb) axes tbody) ixs) =
      some (.load (.tensor nm (some eb) axes tbody) ixs', s) := by
  simp only [TensorInlineExpandMutator.Visit, Expr.asTensor]
  rw [if_neg hnm]
  simp only [hic, if_true, hlk, htb]
  simp only [hwc, hheap, decide_True, Bool.and_self, if_true]
  simp only [habsent, Bool.false_eq_true, if_false]
  simp only [hca, List.length_cons, List.length_nil, Nat.le_refl, if_true,
    hzero]

/-- The remaining cache/temp-suffix branch of `Visit(Load)`
(`compute_inline_expand.cc` lines 105–138): the indices are zeroed for the
compute-at levels, and then the handle and the zeroed indices are
re-visited under the temp-buffer flags; the last two hypotheses isolate
the zeroing step by making that mandatory re-visit the identity (the
tensor name carries no write-cache suffix and the zeroed indices are
`Quiet`), and the save/restore hands the state back unchanged. -/
theorem visit_zeroing_cache_branch (f : Nat) (c : Ctx) (s : MutFlags)
    (nm : String) (eb tb : BufferData) (trec : TensorData)
    (axes : List String) (tbody : Option Expr) (ixs ixs' : List Expr)
    (par : String) (lvl : Nat)
    (hic : s.inline_code = true)
    (hnm : nm ≠ c.tensor_name)
    (hlk : tmapLookup c.all_tensor_map nm = some trec)
    (htb : trec.buffer = some tb)
    (hnotredir : (strEndsWith eb.name "_write_cache" &&
        decide (tb.memory_type = MemoryType.heap)) = false)
    (hsuffix : (strEndsWith eb.name "_write_cache" ||
        strEndsWith eb.name "_read_cache" ||
        strEndsWith eb.name "_temp_buffer") = true)
    (hca : (c.stages nm).compute_ats = [(par, lvl)])
    (hzero : mapOpt (zeroAxes (f + 1) (c.stages nm).axis_names lvl) ixs =
      some ixs')
    (hnm2 : strEndsWith nm "_write_cache" = false)
    (hq : ixs'.all (Quiet (f + 1) c) = true) :
    TensorInlineExpandMutator.Visit (f + 2) c s
        (.load (.tensor nm (some eb) axes tbody) ixs) =
      some (.load (.tensor nm (some eb) axes tbody) ixs', s) := by
  have hslot : ∀ s', TensorInlineExpandMutator.Visit (f + 1) c s'
      (.tensor nm (some eb) axes tbody) =
      some (.tensor nm (some eb) axes tbody, s') := by
    intro s'
    simp [TensorInlineExpandMutator.Visit, hnm2]
  have hrun : ∀ s', runSeq (TensorInlineExpandMutator.Visit (f + 1) c) s'
      ixs' = some (ixs', s') :=
    runSeq_id _ _ (fun x hx s' =>
      Visit_quiet_id (f + 1) c x s' (List.all_eq_true.mp hq x hx))
  show TensorInlineExpandMutator.Visit ((f + 1) + 1) c s
      (.load (.tensor nm (some eb) axes tbody) ixs) =
    some (.load (.tensor nm (some eb) axes tbody) ixs', s)
  generalize f + 1 = g at hslot hrun hzero hq ⊢
  simp only [TensorInlineExpandMutator.Visit, Expr.asTensor]
  rw [if_neg hnm]
  simp only [hic, if_true, hlk, htb]
  rw [hnotredir]
  simp only [Bool.false_eq_true, if_false, hsuffix, if_true, hca]
  simp only [List.length_cons, List.length_nil, Nat.le_refl, if_true, hzero]
  simp [hslot, hrun]
  rw [← hic]

/--
Claim C5 as amended: during inline substitution, every reference to a
cache/temporary-scope tensor (buffer name ending in the write-cache,
read-cache, or temp-buffer suffix) whose stage computes at level `lvl`
has, in each of its index expressions, every occurrence of the axis
variables of levels `0 .. lvl` replaced by the constant zero while other
variables are left unchanged by the zeroing step — **except** when the
load is a heap write-cache alias whose no-cache counterpart exists in the
map, in which case the handle is redirected and the indices are not
zeroed at all (the counterexample).  Conjunct 1 covers the heap
write-cache load whose counterpart is absent (lines 82–104: zeroing is
all that happens).  Conjunct 2 covers the other cache/temp-suffix loads
(lines 105–138), whose zeroed indices and handle are additionally
re-visited; its last two hypotheses isolate the zeroing step by making
that re-visit the identity, as `Quiet` does for C2.  Conjuncts 3–6
identify the sequential per-axis loop with the simultaneous substitution
sending exactly the axis names of positions `0 .. lvl` to zero and fixing
every other variable.
-/
theorem C5_compute_at_zeroing :
    (∀ (f : Nat) (c : Ctx) (s : MutFlags) (nm : String)
        (eb tb : BufferData) (trec : TensorData) (axes : List String)
        (tbody : Option Expr) (ixs ixs' : List Expr) (par : String)
        (lvl : Nat),
      s.inline_code = true → nm ≠ c.tensor_name →
      tmapLookup c.all_tensor_map nm = some trec →
      trec.buffer = some tb →
      strEndsWith eb.name "_write_cache" = true →
      tb.memory_type = MemoryType.heap →
      (tmapLookup c.all_tensor_map
          (strDropRight (strDrop eb.name 1) 12)).isSome = false →
      (c.stages nm).compute_ats = [(par, lvl)] →
      mapOpt (zeroAxes f (c.stages nm).axis_names lvl) ixs = some ixs' →
      TensorInlineExpandMutator.Visit (f + 1) c s
          (.load (.tensor nm (some eb) axes tbody) ixs) =
        some (.load (.tensor nm (some eb) axes tbody) ixs', s)) ∧
    (∀ (f : Nat) (c : Ctx) (s : MutFlags) (nm : String)
        (eb tb : BufferData) (trec : TensorData) (axes : List String)
        (tbody : Option Expr) (ixs ixs' : List Expr) (par : String)
        (lvl : Nat),
      s.inline_code = true → nm ≠ c.tensor_name →
      tmapLookup c.all_tensor_map nm = some trec →
      trec.buffer = some tb →
      (strEndsWith eb.name "_write_cache" &&
        decide (tb.memory_type = MemoryType.heap)) = false →
      (strEndsWith eb.name "_write_cache" ||
        strEndsWith eb.name "_read_cache" ||
        strEndsWith eb.name "_temp_buffer") = true →
      (c.stages nm).compute_ats = [(par, lvl)] →
      mapOpt (zeroAxes (f + 1) (c.stages nm).axis_names lvl) ixs =
        some ixs' →
      strEndsWith nm "_write_cache" = false →
      ixs'.all (Quiet (f + 1) c) = true →
      TensorInlineExpandMutator.Visit (f + 2) c s
          (.load (.tensor nm (some eb) axes tbody) ixs) =
        some (.load (.tensor nm (some eb) axes tbody) ixs', s)) ∧
    (∀ (f : Nat) (names : List String) (lvl : Nat) (ix r : Expr),
      zeroAxes f names lvl ix = some r →
      substVars f (zeroSigma names lvl) ix = some r) ∧
    (∀ (g : Nat) (names : List String) (lvl j : Nat), j < lvl + 1 →
      substVars (g + 1) (zeroSigma names lvl) (.var (names.getD j "")) =
        some (.intImm 0)) ∧
    (∀ (g : Nat) (names : List String) (lvl : Nat) (v : String),
      v ∉ (zeroSigma names lvl).map Prod.fst →
      substVars (g + 1) (zeroSigma names lvl) (.var v) = some (.var v)) ∧
    (∀ (names : List String) (lvl : Nat), lvl + 1 ≤ names.length →
      (zeroSigma names lvl).map Prod.fst = names.take (lvl + 1)) :=
  ⟨fun f c s nm eb tb trec axes tbody ixs ixs' par lvl hic hnm hlk htb hwc
      hheap habsent hca hzero =>
    visit_zeroing_no_alias f c s nm eb tb trec axes tbody ixs ixs' par lvl
      hic hnm hlk htb hwc hheap habsent hca hzero,
   fun f c s nm eb tb trec axes tbody ixs ixs' par lvl hic hnm hlk htb
      hnotredir hsuffix hca hzero hnm2 hq =>
    visit_zeroing_cache_branch f c s nm eb tb trec axes tbody ixs ixs' par
      lvl hic hnm hlk htb hnotredir hsuffix hca hzero hnm2 hq,
   fun f names lvl => zeroAxes_eq_subst f names lvl,
   fun g names lvl j hj => subst_zeroSigma_hit g names lvl j hj,
   fun g names lvl v hv => subst_zeroSigma_miss g names lvl v hv,
   fun names lvl => zeroSigma_fst names lvl⟩

/-- Counterexample to claim C5 as stated: `W_write_cache` is a
cache-suffix-buffered tensor whose stage computes at level 1 with axis
names `i0, i1, i2`, yet after inline substitution its load keeps the raw
axis-0 variable `i0` in its index — the heap write-cache redirect branch
replaces the tensor handle by the no-cache counterpart `W` and never
touches the indices, so the occurrence of `i0` is not replaced by zero. -/
theorem C5_counterexample :
    TensorInlineExpandMutator.Visit 10 ⟨"T", tmapC5, stagesC5⟩ flags0
        (.load tT5 []) =
      some (.load (.tensor "W" (some ⟨"_W", .heap⟩) [] none) [.var "i0"],
        flags0) ∧
    (stagesC5 "W_write_cache").compute_ats = [("Par", 1)] ∧
    (stagesC5 "W_write_cache").axis_names = ["i0", "i1", "i2"] ∧
    (Expr.var "i0") ≠ (Expr.intImm 0) :=
  ⟨rfl, rfl, rfl, by simp⟩

/-- Witness for C5 (amended), exercising both zeroing branches: the
counterpart-absent heap write-cache tensor `X` (conjunct 1) and the
spec's own read-cache shape `R` (conjunct 2), each with three axes
computing at level 1, have the `i0` occurrence of their index zeroed
while the `i2` occurrence survives. -/
theorem C5_witness :
    TensorInlineExpandMutator.Visit 10 ⟨"T", tmapC5x, stagesC5x⟩
        ⟨true, false, false⟩ (.load tX [.add (.var "i0") (.var "i2")]) =
      some (.load tX [.add (.intImm 0) (.var "i2")],
        ⟨true, false, false⟩) ∧
    TensorInlineExpandMutator.Visit 10 ⟨"T", tmapC5w, stagesC5w⟩
        ⟨true, false, false⟩ (.load tR [.add (.var "i0") (.var "i2")]) =
      some (.load tR [.add (.intImm 0) (.var "i2")],
        ⟨true, false, false⟩) := by
  constructor
  · have h := C5_compute_at_zeroing.1 9 ⟨"T", tmapC5x, stagesC5x⟩
      ⟨true, false, false⟩ "X" ⟨"_Y_write_cache", .heap⟩
      ⟨"_Y_write_cache", .heap⟩
      ⟨"X", some ⟨"_Y_write_cache", .heap⟩, [], none⟩ [] none
      [.add (.var "i0") (.var "i2")] [.add (.intImm 0) (.var "i2")]
      "Par" 1 rfl (by decide) rfl rfl rfl rfl rfl rfl rfl
    simpa [tX] using h
  · have h := C5_compute_at_zeroing.2.1 8 ⟨"T", tmapC5w, stagesC5w⟩
      ⟨true, false, false⟩ "R" ⟨"r_read_cache", .gpuShared⟩
      ⟨"r_read_cache", .gpuShared⟩
      ⟨"R", some ⟨"r_read_cache", .gpuShared⟩, [], none⟩ [] none
      [.add (.var "i0") (.var "i2")] [.add (.intImm 0) (.var "i2")]
      "Par" 1 rfl (by decide) rfl rfl rfl rfl rfl rfl rfl rfl
    simpa [tR] using h

/-- Counterexample to claim C6 as stated: the load references tensor `C`,
whose backing buffer is named `_B_write_cache` (write-cache suffix) and
whose resolved buffer scope is heap, and the stripped counterpart `B` is
present in the map — yet the load is not redirected: the inner
`Visit(_Tensor_)` override keys the redirect on the *tensor* name, and
`C` carries no suffix, so the handle stays `C`. -/
theorem C6_counterexample :
    TensorInlineExpandMutator.Visit 10 ⟨"T", tmapC6, stagesNone⟩ flags0
        (.load tT6 []) = some (.load tdC6 [.intImm 0], flags0) ∧
    tdC6 = .tensor "C" (some ⟨"_B_write_cache", .heap⟩) [] none ∧
    strEndsWith "_B_write_cache" "_write_cache" = true ∧
    (tmapLookup tmapC6 "C").map TensorData.buffer =
      some (some ⟨"_C", .heap⟩) ∧
    tmapLookup tmapC6 "B" = some ⟨"B", some ⟨"_B", .heap⟩, [], none⟩ ∧
    tdC6 ≠ TensorData.toExpr ⟨"B", some ⟨"_B", .heap⟩, [], none⟩ := by
  refine ⟨rfl, rfl, rfl, rfl, rfl, ?_⟩
  intro hEq
  rw [tdC6, TensorData.toExpr] at hEq
  injection hEq with h1 _ _ _
  exact absurd h1 (by decide)

/-- Claim C6 as amended: during inline substitution a `Load` is redirected
to the no-cache counterpart when, in addition to the stated conditions
(buffer name carries the write-cache suffix, resolved buffer scope is
heap, the buffer-derived stripped name is present in the map), the
*tensor's own name* also ends with the write-cache suffix; the redirect
target is the map entry of the tensor name with the 12-character suffix
removed, and the load's indices are carried over untouched. -/
theorem C6_cache_redirect (f : Nat) (c : Ctx) (s : MutFlags) (nm : String)
    (eb tb : BufferData) (trec t' : TensorData) (axes : List String)
    (tbody : Option Expr) (ixs : List Expr)
    (hic : s.inline_code = true)
    (hnm : nm ≠ c.tensor_name)
    (hnmwc : strEndsWith nm "_write_cache" = true)
    (hebwc : strEndsWith eb.name "_write_cache" = true)
    (hlk : tmapLookup c.all_tensor_map nm = some trec)
    (htb : trec.buffer = some tb)
    (hheap : tb.memory_type = MemoryType.heap)
    (hbufstrip : (tmapLookup c.all_tensor_map
        (strDropRight (strDrop eb.name 1) 12)).isSome = true)
    (hstrip : tmapLookup c.all_tensor_map (strDropRight nm 12) = some t') :
    TensorInlineExpandMutator.Visit (f + 2) c s
        (.load (.tensor nm (some eb) axes tbody) ixs) =
      some (.load t'.toExpr ixs, s) := by
  show TensorInlineExpandMutator.Visit ((f + 1) + 1) c s
      (.load (.tensor nm (some eb) axes tbody) ixs) = some (.load t'.toExpr ixs, s)
  simp [TensorInlineExpandMutator.Visit, Expr.asTensor, hnm, hic, hlk, htb,
    hheap, hebwc, hnmwc, hbufstrip, hstrip]

/-- Witness for C6 (amended): the standard cache-alias shape
`A_write_cache` backed by `_A_write_cache` (heap) is redirected to the
map's tensor `A` with its index untouched. -/
theorem C6_witness :
    TensorInlineExpandMutator.Visit 10 ⟨"T", tmapC6w, stagesNone⟩
        ⟨true, false, false⟩ (.load tAwc [.var "i"]) =
      some (.load (TensorData.toExpr ⟨"A", some ⟨"_A", .heap⟩, [], none⟩)
        [.var "i"], ⟨true, false, false⟩) := by
  have h := C6_cache_redirect 8 ⟨"T", tmapC6w, stagesNone⟩
    ⟨true, false, false⟩ "A_write_cache" ⟨"_A_write_cache", .heap⟩
    ⟨"_A_write_cache", .heap⟩
    ⟨"A_write_cache", some ⟨"_A_write_cache", .heap⟩, [], none⟩
    ⟨"A", some ⟨"_A", .heap⟩, [], none⟩ [] none [.var "i"]
    rfl (by decide) rfl rfl rfl rfl rfl rfl rfl
  simpa [tAwc] using h

/-- Counterexample to claim C7 as stated: the inner load's buffer `Q`
resolves to device-shared scope, so by the claim its thread-index variable
must not be zeroed — yet the mutator zeroes it, because the device-local
outer buffer `P` set `memory_local` and entering the nested shared buffer
does not clear it. -/
theorem C7_counterexample :
    TensorInlineExpandMutator.Visit 10 ⟨"T", tmapC7, stagesNone⟩ flags0
        (.load tT7 []) = some (.load tP [.load tQ [.intImm 0]], flags0) ∧
    tmapLookup tmapC7 "Q" =
      some ⟨"Q", some ⟨"q_temp_buffer", MemoryType.gpuShared⟩, [], none⟩ ∧
    (Expr.intImm 0) ≠ (Expr.var "threadIdx.x") :=
  ⟨rfl, rfl, by simp⟩

/-- Claim C7 as amended: inside inline code on a temporary buffer, a
variable with a block-index name is always replaced by zero, and a
variable with a thread-index name is replaced by zero exactly when the
mutator's `memory_local` flag is set.  The flag is set on entering a
temp-suffixed load whose mapped buffer is device-local and is inherited —
not cleared — when entering a nested device-shared temp buffer, as the
second conjunct exhibits (the thread-index variable inside the
device-shared `Q` is still zeroed underneath the device-local `P`). -/
theorem C7_scratch_erasure :
    (∀ (f : Nat) (c : Ctx) (s : MutFlags) (x : String),
      TensorInlineExpandMutator.Visit (f + 1) c s (.var x) =
        some ((if s.inline_code && s.temp_buffer &&
            (strStartsWith x "blockIdx" ||
              (strStartsWith x "threadIdx" && s.memory_local))
          then Expr.intImm 0 else Expr.var x), s)) ∧
    TensorInlineExpandMutator.Visit 10 ⟨"T", tmapC7, stagesNone⟩ flags0
        (.load tT7 []) = some (.load tP [.load tQ [.intImm 0]], flags0) := by
  constructor
  · intro f c s x
    cases hcond : (s.inline_code && s.temp_buffer &&
        (strStartsWith x "blockIdx" ||
          (strStartsWith x "threadIdx" && s.memory_local))) <;>
      simp [TensorInlineExpandMutator.Visit, hcond]
  · rfl

theorem gather_inner_ge (k : AxisKind) (d : Nat) :
    ∀ (st : List ForloopInfo) (a : Nat),
      a ≤ st.foldl
        (fun a i => if i.kind = k ∧ i.dim = d then max a i.extent else a) a := by
  intro st
  induction st with
  | nil => intro a; simp
  | cons i st ih =>
    intro a
    simp only [List.foldl_cons]
    refine le_trans ?_ (ih _)
    split
    · exact le_max_left _ _
    · exact le_refl a

theorem gather_inner_mem (k : AxisKind) (d : Nat) :
    ∀ (st : List ForloopInfo) (a : Nat) (i : ForloopInfo), i ∈ st →
      i.kind = k → i.dim = d →
      i.extent ≤ st.foldl
        (fun a i => if i.kind = k ∧ i.dim = d then max a i.extent else a) a := by
  intro st
  induction st with
  | nil => intro a i hi; cases hi
  | cons j st ih =>
    intro a i hi hk hd
    simp only [List.foldl_cons]
    rcases List.mem_cons.mp hi with rfl | hi
    · refine le_trans ?_ (gather_inner_ge k d st _)
      rw [if_pos ⟨hk, hd⟩]
      exact le_max_right _ _
    · exact ih _ i hi hk hd

theorem gather_outer_ge (k : AxisKind) (d : Nat) :
    ∀ (sg : List (List ForloopInfo)) (a : Nat),
      a ≤ sg.foldl
        (fun acc st => st.foldl
          (fun a i => if i.kind = k ∧ i.dim = d then max a i.extent else a)
          acc) a := by
  intro sg
  induction sg with
  | nil => intro a; simp
  | cons st sg ih =>
    intro a
    simp only [List.foldl_cons]
    exact le_trans (gather_inner_ge k d st a) (ih _)

theorem gather_outer_mem (k : AxisKind) (d : Nat) :
    ∀ (sg : List (List ForloopInfo)) (a : Nat) (st : List ForloopInfo)
      (i : ForloopInfo), st ∈ sg → i ∈ st → i.kind = k → i.dim = d →
      i.extent ≤ sg.foldl
        (fun acc st => st.foldl
          (fun a i => if i.kind = k ∧ i.dim = d then max a i.extent else a)
          acc) a := by
  intro sg
  induction sg with
  | nil => intro a st i hst; cases hst
  | cons st₀ sg ih =>
    intro a st i hst hi hk hd
    simp only [List.foldl_cons]
    rcases List.mem_cons.mp hst with rfl | hst
    · exact le_trans (gather_inner_mem k d st a i hi hk hd)
        (gather_outer_ge k d sg _)
    · exact ih _ st i hst hi hk hd

theorem gather_inner_real (k : AxisKind) (d : Nat) :
    ∀ (st : List ForloopInfo) (a : Nat),
      st.foldl
        (fun a i => if i.kind = k ∧ i.dim = d then max a i.extent else a) a = a ∨
      ∃ i ∈ st, i.kind = k ∧ i.dim = d ∧
        st.foldl
          (fun a i => if i.kind = k ∧ i.dim = d then max a i.extent else a) a =
          i.extent := by
  intro st
  induction st with
  | nil => intro a; exact Or.inl rfl
  | cons j st ih =>
    intro a
    simp only [List.foldl_cons]
    by_cases hP : j.kind = k ∧ j.dim = d
    · rw [if_pos hP]
      rcases ih (max a j.extent) with heq | ⟨i, hi, hk, hd, heq⟩
      · rcases max_choice a j.extent with hm | hm
        · exact Or.inl (heq.trans hm)
        · exact Or.inr ⟨j, by simp, hP.1, hP.2, heq.trans hm⟩
      · exact Or.inr ⟨i, by simp [hi], hk, hd, heq⟩
    · rw [if_neg hP]
      rcases ih a with heq | ⟨i, hi, hk, hd, heq⟩
      · exact Or.inl heq
      · exact Or.inr ⟨i, by simp [hi], hk, hd, heq⟩

theorem gather_outer_real (k : AxisKind) (d : Nat) :
    ∀ (sg : List (List ForloopInfo)) (a : Nat),
      sg.foldl
        (fun acc st => st.foldl
          (fun a i => if i.kind = k ∧ i.dim = d then max a i.extent else a)
          acc) a = a ∨
      ∃ st ∈ sg, ∃ i ∈ st, i.kind = k ∧ i.dim = d ∧
        sg.foldl
          (fun acc st => st.foldl
            (fun a i => if i.kind = k ∧ i.dim = d then max a i.extent else a)
            acc) a = i.extent := by
  intro sg
  induction sg with
  | nil => intro a; exact Or.inl rfl
  | cons st₀ sg ih =>
    intro a
    simp only [List.foldl_cons]
    rcases ih (st₀.foldl _ a) with heq | ⟨st, hst, i, hi, hk, hd, heq⟩
    · rcases gather_inner_real k d st₀ a with h₀ | ⟨i, hi, hk, hd, h₀⟩
      · exact Or.inl (heq.trans h₀)
      · exact Or.inr ⟨st₀, by simp, i, hi, hk, hd, heq.trans h₀⟩
    · exact Or.inr ⟨st, by simp [hst], i, hi, hk, hd, heq⟩

/-- Claim C8: for each device-axis identity, the launch dimension gathered
from a group of stages is the maximum extent over all loops bound to that
axis — every bound extent is at most the gathered value, and the gathered
value (when non-zero) is itself one of the bound extents, never a sum; in
particular with one stage binding grid-dim-0 at extent 128 and another at
extent 64 the gathered bound is 128. -/
theorem C8_axis_extent_max :
    (∀ (sg : List (List ForloopInfo)) (k : AxisKind) (d : Nat),
      (∀ st ∈ sg, ∀ i ∈ st, i.kind = k → i.dim = d →
        i.extent ≤ GatherAxisInfoFromStages sg k d) ∧
      (GatherAxisInfoFromStages sg k d = 0 ∨
        ∃ st ∈ sg, ∃ i ∈ st, i.kind = k ∧ i.dim = d ∧
          GatherAxisInfoFromStages sg k d = i.extent)) ∧
    GatherAxisInfoFromStages [[⟨.grid, 0, 128⟩], [⟨.grid, 0, 64⟩]]
      .grid 0 = 128 := by
  constructor
  · intro sg k d
    constructor
    · intro st hst i hi hk hd
      exact gather_outer_mem k d sg 0 st i hst hi hk hd
    · exact gather_outer_real k d sg 0
  · rfl

/-- Witness for C8: applying the theorem to the 128/64 example yields the
upper bound for the larger extent. -/
theorem C8_witness :
    (128 : Nat) ≤ GatherAxisInfoFromStages
      [[⟨.grid, 0, 128⟩], [⟨.grid, 0, 64⟩]] .grid 0 :=
  (C8_axis_extent_max.1 [[⟨.grid, 0, 128⟩], [⟨.grid, 0, 64⟩]] .grid 0).1
    [⟨.grid, 0, 128⟩] (by simp) ⟨.grid, 0, 128⟩ (by simp) rfl rfl

end CINN
